import Mathlib

/-!
Verification of the hassil template-based intent recognizer.

This file gives a shallow embedding of the parts of hassil relevant to the
checked claims, translated from the Python sources:

* `src/hassil/util.py` — text utilities (whitespace collapse, punctuation
  removal, case-insensitive prefix/substring matching),
* `src/hassil/trie.py` — the word trie,
* `src/hassil/intents.py` — slot-list declarations and their validation,
* `src/hassil/parse_expression.py` — permutation expansion and
  `add_spaces_between_items`,
* `src/hassil/string_matcher.py` — `MatchContext`, `MatchSettings` and the
  non-deterministic `match_expression` engine,
* `src/hassil/recognize.py` — result shaping (`_process_match_contexts`),
  the regex pre-filter stage of `recognize_all`, and `recognize_best`.

Python strings are modelled as `List Char`; machine integers do not occur
(Python integers are unbounded, matching Lean `Int`/`Nat`).  Python `Any`
values are modelled by the inductive `PyValue`.  Code that raises is modelled
with `Except`.  The external collaborators (the `unicode_rbnf` number-words
engine behind the range trie cache, compiled regular expressions of the
sentence pre-filter, and Unicode NFC normalization) are modelled as function
parameters, since their implementations live outside this repository.

All recursion is structural (explicit fuel where the Python recursion is not
structural), so every definition evaluates on concrete inputs.
-/

/-! ## Python string primitives (`src/hassil/util.py` and `str` builtins) -/

/-- Python strings as lists of characters. -/
abbrev Str := List Char

/-- Convert a Lean string literal to the `Str` model. -/
def str (s : String) : Str := s.data

/-- The set of characters matched by Python's `\s` (and stripped by
`str.strip`) for text strings: ASCII whitespace, the C1 separators, and the
Unicode space characters. -/
def isPySpace (c : Char) : Bool :=
  let n := c.toNat
  (9 <= n && n <= 13) || n = 32 || (28 <= n && n <= 31) || n = 133 || n = 160 ||
  n = 0x1680 || (0x2000 <= n && n <= 0x200a) || n = 0x2028 || n = 0x2029 ||
  n = 0x202f || n = 0x205f || n = 0x3000

/-- Python `str.lstrip()`. -/
def pyLstrip (s : Str) : Str := s.dropWhile isPySpace

/-- Python `str.rstrip()`. -/
def pyRstrip (s : Str) : Str := (s.reverse.dropWhile isPySpace).reverse

/-- Python `str.strip()`. -/
def pyStrip (s : Str) : Str := pyRstrip (pyLstrip s)

/-- Python `str.isspace()`: non-empty and all characters whitespace. -/
def pyIsspace (s : Str) : Bool := !s.isEmpty && s.all isPySpace

/-- `WHITESPACE.sub("", text)`: remove all whitespace characters. -/
def removeWs (s : Str) : Str := s.filter (fun c => !isPySpace c)

/-- The punctuation set `PUNCTUATION_STR = ".。,，?¿？؟!¡！;；:：’"`. -/
def isPunct (c : Char) : Bool :=
  c = '.' || c = '。' || c = ',' || c = '，' || c = '?' || c = '¿' ||
  c = '？' || c = '؟' || c = '!' || c = '¡' || c = '！' || c = ';' ||
  c = '；' || c = ':' || c = '：' || c = '’'

/-- `PUNCTUATION_ALL.sub("", text)`: remove every punctuation character
(removing each run is the same as removing each character). -/
def removePunctAll (s : Str) : Str := s.filter (fun c => !isPunct c)

/-- `str.maketrans("-_", "  ")` applied by `BREAK_WORDS_TABLE`. -/
def translateBreakWords (s : Str) : Str :=
  s.map (fun c => if c = '-' || c = '_' then ' ' else c)

/-- Case folding used by `re.IGNORECASE` comparisons (ASCII fold; the claims
do not exercise non-ASCII case folding). -/
def foldCase (s : Str) : Str := s.map Char.toLower

/-- `match_start(text, prefix)` from `util.py`: case-insensitive literal
prefix match, returning the end position of the match. -/
def matchStart (text : Str) (pre : Str) : Option Nat :=
  if (foldCase pre).isPrefixOf (foldCase text) then some pre.length else none

/-- Whether the literal `pat` occurs (case-insensitively) at position `i`. -/
def occursAt (text : Str) (pat : Str) (i : Nat) : Bool :=
  (foldCase pat).isPrefixOf (foldCase (text.drop i))

/-- First position `≥ start` at which `pat` occurs case-insensitively in
`text`, scanning positions `start, start+1, …`; `k` is the number of
positions still to try. -/
def findFrom (text : Str) (pat : Str) (start : Nat) : Nat → Option Nat
  | 0 => none
  | k + 1 =>
    if occursAt text pat start then some start
    else findFrom text pat (start + 1) k

/-- `match_first(text, prefix, start_idx)` from `util.py`: index of the first
case-insensitive occurrence of the literal at or after `start_idx`, or `none`
(the Python function returns `-1`). -/
def matchFirst (text : Str) (pre : Str) (startIdx : Nat) : Option Nat :=
  findFrom text pre startIdx (text.length + 1 - startIdx)

/-! ## Text normalization (`normalize_whitespace` / `normalize_text`) -/

/-- Core of `WHITESPACE_CAPTURE.sub(" ", text)`: replace each maximal run of
whitespace with a single space.  The flag records whether we are inside a
run whose single space has already been emitted. -/
def collapseWsAux : Bool → Str → Str
  | _, [] => []
  | inRun, c :: rest =>
    if isPySpace c then
      if inRun then collapseWsAux true rest
      else ' ' :: collapseWsAux true rest
    else c :: collapseWsAux false rest

/-- `normalize_whitespace(text)` from `util.py`. -/
def normalizeWhitespace (s : Str) : Str := collapseWsAux false s

/-- `normalize_text(text)` from `util.py`: collapse whitespace, then apply
Unicode NFC.  NFC (`unicodedata.normalize`) is external to the repository and
is passed in as a parameter. -/
def normalizeText (nfc : Str → Str) (s : Str) : Str := nfc (normalizeWhitespace s)

/-! ## Python values (`Any`) -/

/-- Model of the Python values that flow through slot values, entity values
and context dictionaries. -/
inductive PyValue where
  | none
  | str (s : Str)
  | int (n : Int)
  | num (q : Rat)
  | bool (b : Bool)
  | list (xs : List PyValue)
  | dict (kvs : List (Str × PyValue))

mutual
/-- Python `==` on the modelled values (structural). -/
def pyBeq : PyValue → PyValue → Bool
  | .none, .none => true
  | .str a, .str b => a == b
  | .int a, .int b => a == b
  | .num a, .num b => a == b
  | .bool a, .bool b => a == b
  | .list a, .list b => pyBeqList a b
  | .dict a, .dict b => pyBeqDict a b
  | _, _ => false

/-- Elementwise `==` on lists of values. -/
def pyBeqList : List PyValue → List PyValue → Bool
  | [], [] => true
  | a :: as, b :: bs => pyBeq a b && pyBeqList as bs
  | _, _ => false

/-- Elementwise `==` on string-keyed dictionaries (in insertion order). -/
def pyBeqDict : List (Str × PyValue) → List (Str × PyValue) → Bool
  | [], [] => true
  | (k1, v1) :: as, (k2, v2) :: bs => k1 == k2 && pyBeq v1 v2 && pyBeqDict as bs
  | _, _ => false
end

/-- Python truthiness of a modelled value. -/
def pyTruthy : PyValue → Bool
  | .none => false
  | .str s => !s.isEmpty
  | .int n => n != 0
  | .num q => q != 0
  | .bool b => b
  | .list xs => !xs.isEmpty
  | .dict kvs => !kvs.isEmpty

/-- A dictionary with string keys, in insertion order. -/
abbrev PyDict := List (Str × PyValue)

/-- Python `dict.get(key)` (`None` when missing); first binding wins, matching
the model's invariant that keys are unique. -/
def dictGet (d : PyDict) (key : Str) : PyValue :=
  match d.find? (fun kv => kv.fst == key) with
  | some kv => kv.snd
  | Option.none => .none

/-- Python `key in dict`. -/
def dictHas (d : PyDict) (key : Str) : Bool := d.any (fun kv => kv.fst == key)

/-- Python `d[key] = v` (replace or append). -/
def dictSet (d : PyDict) (key : Str) (v : PyValue) : PyDict :=
  if dictHas d key then
    d.map (fun kv => if kv.fst == key then (key, v) else kv)
  else d ++ [(key, v)]

/-- Python `{**a, **b}` / `a.update(b)`. -/
def dictUpdate (a b : PyDict) : PyDict := b.foldl (fun acc kv => dictSet acc kv.fst kv.snd) a

/-- `isinstance(v, collections.abc.Mapping)`. -/
def pyIsMapping : PyValue → Bool
  | .dict _ => true
  | _ => false

/-- `isinstance(v, str)`. -/
def pyIsStr : PyValue → Bool
  | .str _ => true
  | _ => false

/-- `isinstance(v, collections.abc.Collection) and not isinstance(v, str)`:
in this model, lists and dictionaries. -/
def pyIsNonStrCollection : PyValue → Bool
  | .list _ => true
  | .dict _ => true
  | _ => false

/-- Python `x in v` for a non-string collection: membership by `==` in a
list, key membership in a dictionary. -/
def pyContains (v : PyValue) (x : PyValue) : Bool :=
  match v with
  | .list xs => xs.any (pyBeq x)
  | .dict kvs => kvs.any (fun kv => pyBeq (.str kv.fst) x)
  | _ => false

/-- `v.get("value")` after `isinstance(v, Mapping)`; non-mappings unchanged. -/
def unpackValue (v : PyValue) : PyValue :=
  match v with
  | .dict kvs => dictGet kvs (str "value")
  | _ => v

/-! ## Context checks (`check_required_context` / `check_excluded_context`,
`src/hassil/util.py`) -/

/-- `check_required_context` from `util.py`. -/
def checkRequiredContext (required : PyDict) (matchCtx : PyDict)
    (allowMissingKeys : Bool) : Bool :=
  required.all fun (requiredKey, requiredValue0) =>
    if matchCtx.isEmpty || !dictHas matchCtx requiredKey then
      -- Match is missing key
      allowMissingKeys
    else
      let requiredValue := if pyIsMapping requiredValue0 then unpackValue requiredValue0
                           else requiredValue0
      let actualValue0 := dictGet matchCtx requiredKey
      let actualValue := if pyIsMapping actualValue0 then unpackValue actualValue0
                         else actualValue0
      if !pyIsStr requiredValue && pyIsNonStrCollection requiredValue then
        pyContains requiredValue actualValue
      else if !(pyBeq requiredValue .none) && !(pyBeq actualValue requiredValue) then
        false
      else
        true

/-- `check_excluded_context` from `util.py`. -/
def checkExcludedContext (excluded : PyDict) (matchCtx : PyDict) : Bool :=
  excluded.all fun (excludedKey, excludedValue0) =>
    if matchCtx.isEmpty || !dictHas matchCtx excludedKey then
      true
    else
      let excludedValue := if pyIsMapping excludedValue0 then unpackValue excludedValue0
                           else excludedValue0
      let actualValue0 := dictGet matchCtx excludedKey
      let actualValue := if pyIsMapping actualValue0 then unpackValue actualValue0
                         else actualValue0
      if !pyIsStr excludedValue && pyIsNonStrCollection excludedValue then
        !pyContains excludedValue actualValue
      else
        !pyBeq actualValue excludedValue

/-! ## Expression tree (`src/hassil/expression.py`) -/

/-- `SequenceType` from `expression.py`. -/
inductive SequenceType where
  | group
  | alternative
  | permutation
  deriving DecidableEq

/-- The expression sum type from `expression.py`.  `TextChunk.parent` is a
back-pointer convenience and is omitted.  A `Sentence` is a `Sequence` and is
represented by `Expression.seq`. -/
inductive Expression where
  | textChunk (text : Str) (originalText : Str)
  | seq (type : SequenceType) (items : List Expression) (isOptional : Bool)
  | listRef (listName : Str) (slotName : Str)
  | ruleRef (ruleName : Str)

/-- `TextChunk.is_empty`. -/
def chunkIsEmpty (text : Str) : Bool := text.isEmpty

/-- A one-space text chunk, as built by `TextChunk(" ")`. -/
def spaceChunk : Expression := .textChunk (str " ") (str " ")

/-! ## Matcher data model (`src/hassil/models.py`, `src/hassil/intents.py`,
`src/hassil/string_matcher.py`) -/

/-- `MatchEntity` from `models.py`. -/
structure MatchEntity where
  name : Str
  value : PyValue
  text : Str
  metadata : Option PyDict
  is_wildcard : Bool
  is_wildcard_open : Bool

/-- `MatchEntity` constructor defaults (`metadata=None`, `is_wildcard=False`,
`is_wildcard_open=True`). -/
def mkMatchEntity (name : Str) (value : PyValue) (text : Str) : MatchEntity :=
  { name, value, text, metadata := none, is_wildcard := false, is_wildcard_open := true }

/-- `UnmatchedTextEntity` and `UnmatchedRangeEntity` from `models.py`. -/
inductive UnmatchedEntity where
  | text (name : Str) (text : Str) (is_open : Bool)
  | range (name : Str) (value : PyValue)

/-- Name of an unmatched entity. -/
def UnmatchedEntity.name : UnmatchedEntity → Str
  | .text n _ _ => n
  | .range n _ => n

/-- `RangeSlotList` from `intents.py`.  The declaration in `src` carries
`start`, `stop`, `step` (validated by `__post_init__`); the `digits`, `words`,
`words_language` and `multiplier` fields are the ones `string_matcher.py`
reads on range lists, declared per the spec (digits/words both default true,
multiplier optional). -/
structure RangeSlotList where
  start : Int
  stop : Int
  step : Int
  digits : Bool
  words : Bool
  words_language : Option Str
  multiplier : Option Rat

/-- `TextSlotValue` from `intents.py` (with the matcher-visible `metadata`
field of the spec's data model). -/
structure TextSlotValue where
  text_in : Expression
  value_out : PyValue
  context : Option PyDict
  metadata : Option PyDict

/-- The `SlotList` sum type: text values, numeric range, or wildcard. -/
inductive SlotList where
  | text (values : List TextSlotValue)
  | range (r : RangeSlotList)
  | wildcard

/-- Per-intent-data settings read by `recognize_all`
(`intent_data.settings.filter_with_regex`). -/
structure IntentDataSettings where
  filter_with_regex : Bool

/-- The slice of `IntentData` that the matcher and result shaping read. -/
structure IntentData where
  sentences : List Expression
  slots : PyDict
  requires_context : PyDict
  excludes_context : PyDict
  response : Option Str
  metadata : Option PyDict
  settings : IntentDataSettings

/-- `MatchSettings` from `string_matcher.py`. -/
structure MatchSettings where
  slot_lists : List (Str × SlotList)
  expansion_rules : List (Str × Expression)
  ignore_whitespace : Bool
  allow_unmatched_entities : Bool
  language : Option Str

/-- Dictionary lookup in the settings maps. -/
def slotListsGet (m : List (Str × SlotList)) (key : Str) : Option SlotList :=
  match m.find? (fun kv => kv.fst == key) with
  | some kv => some kv.snd
  | none => none

/-- Dictionary lookup in the expansion-rule map. -/
def rulesGet (m : List (Str × Expression)) (key : Str) : Option Expression :=
  match m.find? (fun kv => kv.fst == key) with
  | some kv => some kv.snd
  | none => none

/-- `MatchContext` from `string_matcher.py`.  The `intent_sentence`
back-pointer is only copied around by the matcher and is omitted;
`close_wildcards` / `close_unmatched` are constructor flags and are modelled
by the explicit maps below. -/
structure MatchContext where
  text : Str
  entities : List MatchEntity
  intent_context : PyDict
  is_start_of_word : Bool
  unmatched_entities : List UnmatchedEntity
  text_chunks_matched : Nat
  intent_data : Option IntentData

/-- `__post_init__` with `close_wildcards=True`: mark every entity's wildcard
state closed. -/
def closeWildcards (entities : List MatchEntity) : List MatchEntity :=
  entities.map (fun e => { e with is_wildcard_open := false })

/-- `__post_init__` with `close_unmatched=True`: close every open unmatched
text entity. -/
def closeUnmatched (unmatched : List UnmatchedEntity) : List UnmatchedEntity :=
  unmatched.map fun u =>
    match u with
    | .text n t _ => .text n t false
    | .range n v => .range n v

/-- `MatchContext.get_open_wildcard`: the last entity, when it is an open
wildcard. -/
def MatchContext.getOpenWildcard (ctx : MatchContext) : Option MatchEntity :=
  match ctx.entities.getLast? with
  | some e => if e.is_wildcard && e.is_wildcard_open then some e else none
  | none => none

/-- `MatchContext.get_open_entity`: the last unmatched entity, when it is an
open text entity. -/
def MatchContext.getOpenEntity (ctx : MatchContext) : Option (Str × Str) :=
  match ctx.unmatched_entities.getLast? with
  | some (.text n t true) => some (n, t)
  | _ => none

/-- `MatchContext.is_match` from `string_matcher.py` (lines 115–134): no
unconsumed text beyond whitespace/punctuation, no empty wildcard entity, no
empty unmatched text entity. -/
def MatchContext.isMatch (ctx : MatchContext) : Bool :=
  if !(pyStrip (removePunctAll ctx.text)).isEmpty then false
  else if ctx.entities.any (fun e => e.is_wildcard && (pyStrip e.text).isEmpty) then
    false
  else if ctx.unmatched_entities.any (fun u =>
      match u with
      | .text _ t _ => (pyStrip t).isEmpty
      | .range _ _ => false) then
    false
  else true

/-! ## Number parsing (`NUMBER_START` / `NUMBER_ANYWHERE`,
`src/hassil/string_matcher.py`) -/

/-- Match the regex `\s*-?[0-9]+` at the start of `s`, returning the end
position of the match. -/
def matchNumberPre (s : Str) : Option Nat :=
  let wsLen := (s.takeWhile isPySpace).length
  let afterWs := s.drop wsLen
  match afterWs with
  | '-' :: rest =>
    let digLen := (rest.takeWhile Char.isDigit).length
    if digLen = 0 then none else some (wsLen + 1 + digLen)
  | other =>
    let digLen := (other.takeWhile Char.isDigit).length
    if digLen = 0 then none else some (wsLen + digLen)

/-- `NUMBER_ANYWHERE.finditer(text)`: successive non-overlapping matches of
`\s*-?[0-9]+`, as (start, end) pairs.  `fuel` bounds the scan (the position
strictly increases each step). -/
def finditerNumbersAux (s : Str) : Nat → Nat → List (Nat × Nat)
  | _, 0 => []
  | pos, fuel + 1 =>
    if pos ≥ s.length then []
    else
      match matchNumberPre (s.drop pos) with
      | some e => (pos, pos + e) :: finditerNumbersAux s (pos + e) fuel
      | none => finditerNumbersAux s (pos + 1) fuel

/-- All matches of `NUMBER_ANYWHERE` in `s`. -/
def finditerNumbers (s : Str) : List (Nat × Nat) := finditerNumbersAux s 0 (s.length + 1)

/-- Decimal value of a digit string. -/
def natOfDigits (ds : Str) : Nat := ds.foldl (fun a c => a * 10 + (c.toNat - 48)) 0

/-- Python `int(text)` on a `\s*-?[0-9]+` match. -/
def pyIntOfStr (s : Str) : Int :=
  match pyStrip s with
  | '-' :: ds => -(Int.ofNat (natOfDigits ds))
  | ds => Int.ofNat (natOfDigits ds)

/-- Range membership from `match_expression`: `start ≤ n ≤ stop` for unit
step, else `n in range(start, stop + 1, step)` (the step is positive by the
`RangeSlotList` invariant). -/
def rangeListInRange (rl : RangeSlotList) (n : Int) : Bool :=
  if rl.step = 1 then rl.start ≤ n && n ≤ rl.stop
  else rl.start ≤ n && n < rl.stop + 1 && (n - rl.start) % rl.step = 0

/-! ## The matcher (`match_expression`, `src/hassil/string_matcher.py`) -/

/-- Errors raised by the matcher. -/
inductive MatchError where
  | missingList (name : Str)
  | missingRule (name : Str)
  | valueError

/-- The closed wildcard entity built when a chunk bounds an open wildcard. -/
def mkClosedWildcard (name : Str) (wtext : Str) : MatchEntity :=
  { name, value := .str wtext, text := wtext, metadata := none,
    is_wildcard := true, is_wildcard_open := false }

/-- `text.endswith(" ")`. -/
def endsWithSpace (s : Str) : Bool :=
  match s.getLast? with
  | some c => c = ' '
  | none => false

/-- First case-sensitive occurrence of `pat` in `text` (`re.search` on an
escaped literal), as (start, end); `k` bounds the scan. -/
def findCSAux (text pat : Str) : Nat → Nat → Option (Nat × Nat)
  | _, 0 => none
  | i, k + 1 =>
    if pat.isPrefixOf (text.drop i) then some (i, i + pat.length)
    else if i ≥ text.length then none
    else findCSAux text pat (i + 1) k

/-- `re.search(re.escape(pat), text)`. -/
def findCS (text pat : Str) : Option (Nat × Nat) := findCSAux text pat 0 (text.length + 1)

/-- `re.search(rf"\s{pat}(\s|$)", text)` for a literal `pat`: the first
position whose character is whitespace, followed by `pat`, followed by
whitespace or the end of the string; returns (start, end) of the whole
match. -/
def findWordBoundedAux (text pat : Str) : Nat → Nat → Option (Nat × Nat)
  | _, 0 => none
  | i, k + 1 =>
    match text.drop i with
    | [] => none
    | c :: rest =>
      if isPySpace c && pat.isPrefixOf rest then
        let j := i + 1 + pat.length
        if j = text.length then some (i, j)
        else if j < text.length && isPySpace (text.getD j ' ') then
          some (i, j + 1)
        else findWordBoundedAux text pat (i + 1) k
      else findWordBoundedAux text pat (i + 1) k

/-- `re.search(rf"\s{pat}(\s|$)", text)`. -/
def findWordBounded (text pat : Str) : Option (Nat × Nat) :=
  findWordBoundedAux text pat 0 (text.length + 1)

/-- Type of the recursive entry point handed to the branch helpers. -/
abbrev MatchRec := MatchContext → Expression → Except MatchError (List MatchContext)

/-- Match one expression from every context of the current frontier
(the list comprehension in the GROUP branch). -/
def matchFrontier (mrec : MatchRec) (item : Expression) :
    List MatchContext → Except MatchError (List MatchContext)
  | [] => .ok []
  | c :: cs => do
    let r ← mrec c item
    let rs ← matchFrontier mrec item cs
    .ok (r ++ rs)

/-- The GROUP fold of `match_expression`: thread the frontier through the
items, stopping when it becomes empty. -/
def groupFold (mrec : MatchRec) : List Expression → List MatchContext →
    Except MatchError (List MatchContext)
  | [], ctxs => .ok ctxs
  | item :: rest, ctxs => do
    let next ← matchFrontier mrec item ctxs
    if next.isEmpty then .ok []
    else groupFold mrec rest next

/-- The ALTERNATIVE branch: union of the matches of each item. -/
def altFold (mrec : MatchRec) (ctx : MatchContext) :
    List Expression → Except MatchError (List MatchContext)
  | [] => .ok []
  | item :: rest => do
    let r ← mrec ctx item
    let rs ← altFold mrec ctx rest
    .ok (r ++ rs)

/-- The `while start_idx > 0` loop of the open-wildcard chunk case: for each
occurrence of the chunk text, close the wildcard on the prefix and re-match
the same chunk expression.  `k` bounds the scan (occurrence positions
strictly increase). -/
def wildcardChunkLoop (mrec : MatchRec) (ctx : MatchContext) (expr : Expression)
    (contextText chunkText : Str) (entsNoWildcard : List MatchEntity)
    (wname : Str) : Nat → Nat → Except MatchError (List MatchContext)
  | _, 0 => .ok []
  | startIdx, k + 1 => do
    let wt := contextText.take startIdx
    let r ← mrec { ctx with
                   text := contextText.drop startIdx,
                   is_start_of_word := true,
                   entities := entsNoWildcard ++ [mkClosedWildcard wname wt] } expr
    match matchFirst contextText chunkText (startIdx + 1) with
    | some next => do
      let rs ← wildcardChunkLoop mrec ctx expr contextText chunkText entsNoWildcard wname next k
      .ok (r ++ rs)
    | none => .ok r

/-- The TextChunk branch of `match_expression` (lines 163–400).  `chunkRaw`
is `chunk.text`; `expr` is the chunk expression itself (needed for the
open-wildcard re-match). -/
def matchTextChunk (mrec : MatchRec) (settings : MatchSettings) (ctx : MatchContext)
    (expr : Expression) (chunkRaw : Str) : Except MatchError (List MatchContext) :=
  let pair :=
    if settings.ignore_whitespace then (removeWs chunkRaw, removeWs ctx.text)
    else if ctx.is_start_of_word then (pyLstrip chunkRaw, pyLstrip ctx.text)
    else (chunkRaw, ctx.text)
  let chunkText := pair.fst
  let contextText := pair.snd
  let isContextTextEmpty := (pyStrip contextText).isEmpty
  if chunkIsEmpty chunkRaw then
    -- Skip empty chunk (NOT whitespace)
    .ok [ctx]
  else
    let wildcard := ctx.getOpenWildcard
    if (match wildcard with
        | some w => (pyStrip w.text).isEmpty
        | none => false) then
      -- Open wildcard whose text is still empty
      match wildcard with
      | none => .ok []
      | some w =>
        if (pyStrip chunkText).isEmpty then
          -- Skip space
          .ok [{ ctx with text := contextText, is_start_of_word := true }]
        else
          match matchFirst contextText chunkText 0 with
          | none => .ok []
          | some si0 =>
            match (if si0 = 0 then matchFirst contextText chunkText 1 else some si0) with
            | none => .ok []
            | some si =>
              wildcardChunkLoop mrec ctx expr contextText chunkText
                ctx.entities.dropLast w.name si (contextText.length + 1)
    else
      match matchStart contextText chunkText with
      | some endPos =>
        -- Successful match for chunk
        let chunkStripped := pyStrip chunkText
        let isChunkNonEmpty := !chunkStripped.isEmpty
        .ok [{ ctx with
               text := contextText.drop endPos,
               is_start_of_word := endsWithSpace chunkRaw,
               text_chunks_matched :=
                 ctx.text_chunks_matched + (if isChunkNonEmpty then chunkStripped.length else 0),
               entities := if isChunkNonEmpty then closeWildcards ctx.entities else ctx.entities,
               unmatched_entities :=
                 if isChunkNonEmpty then closeUnmatched ctx.unmatched_entities
                 else ctx.unmatched_entities }]
      | none =>
        if isContextTextEmpty && pyIsspace chunkText then
          -- No text left to match, extra whitespace is OK to skip
          .ok [ctx]
        else
          -- Try breaking words apart
          let contextText2 := translateBreakWords contextText
          match matchStart contextText2 chunkText with
          | some endPos2 =>
            let isChunkNonEmpty := !(pyStrip chunkText).isEmpty
            .ok [{ ctx with
                   text := contextText2.drop endPos2,
                   entities := if isChunkNonEmpty then closeWildcards ctx.entities else ctx.entities,
                   unmatched_entities :=
                     if isChunkNonEmpty then closeUnmatched ctx.unmatched_entities
                     else ctx.unmatched_entities }]
          | none =>
            match wildcard with
            | some w =>
              -- Absorb into the open wildcard up to the chunk occurrence
              match matchFirst contextText chunkText 0 with
              | some skipIdx =>
                let wt := contextText.take skipIdx
                if !wt.isEmpty then
                  .ok [{ ctx with
                         text := ctx.text.drop (skipIdx + chunkText.length),
                         is_start_of_word := true,
                         entities := (ctx.entities.filter (fun e => !(e.name == w.name)))
                                       ++ [mkClosedWildcard w.name wt] }]
                else .ok []
              | none => .ok []
            | none =>
              if settings.allow_unmatched_entities then
                match ctx.getOpenEntity with
                | some (uname, utext) =>
                  -- Absorb into the open unmatched entity up to the chunk
                  let cs := pyStrip chunkText
                  let found :=
                    if settings.ignore_whitespace then findCS contextText cs
                    else findWordBounded contextText cs
                  match found with
                  | some (s0, e0) =>
                    let uetext := utext ++ contextText.take (s0 + 1)
                    if !uetext.isEmpty then
                      .ok [{ ctx with
                             text := ctx.text.drop e0,
                             is_start_of_word := true,
                             unmatched_entities :=
                               (ctx.unmatched_entities.filter (fun u => !(u.name == uname)))
                                 ++ [.text uname uetext false] }]
                    else .ok []
                  | none => .ok []
                | none => .ok []
              else
                -- Match failed
                .ok []

/-- Build the successor context for one matched text-slot value
(the inner loop body of the TextSlotList branch). -/
def mkListValueMatch (ctx : MatchContext) (slotName : Str) (sv : TextSlotValue)
    (vc : MatchContext) : MatchContext :=
  let valueWildcard : Option MatchEntity :=
    match vc.entities.getLast? with
    | some e => if e.is_wildcard then some e else none
    | none => none
  let remainingText :=
    match valueWildcard with
    | some vw =>
      if vw.text.isPrefixOf ctx.text then ctx.text.drop vw.text.length else ctx.text
    | none => ctx.text
  let etext :=
    if !vc.text.isEmpty then remainingText.take (remainingText.length - vc.text.length)
    else remainingText
  let entity : MatchEntity :=
    { name := slotName, value := sv.value_out, text := etext, metadata := sv.metadata,
      is_wildcard := false, is_wildcard_open := true }
  let svctx := sv.context.getD []
  if !svctx.isEmpty then
    { ctx with
      entities := vc.entities ++ [entity],
      intent_context := dictUpdate ctx.intent_context svctx,
      text := vc.text }
  else
    { ctx with
      entities := vc.entities ++ [entity],
      intent_context := vc.intent_context,
      text := vc.text }

/-- The per-value loop of the TextSlotList branch; returns the yielded
contexts and the `has_matches` flag. -/
def textListLoop (mrec : MatchRec) (ctx : MatchContext) (slotName : Str) :
    List TextSlotValue → Except MatchError (List MatchContext × Bool)
  | [] => .ok ([], false)
  | sv :: rest =>
    let svctx := sv.context.getD []
    let skipRequired :=
      match ctx.intent_data with
      | some d => !d.requires_context.isEmpty &&
          !checkRequiredContext d.requires_context svctx true
      | none => false
    let skipExcluded :=
      match ctx.intent_data with
      | some d => !d.excludes_context.isEmpty &&
          !checkExcludedContext d.excludes_context svctx
      | none => false
    if skipRequired || skipExcluded then textListLoop mrec ctx slotName rest
    else
      let skipTooLong : Bool :=
        match sv.text_in with
        | .textChunk t _ => decide (ctx.text.length < t.length)
        | _ => false
      if skipTooLong then textListLoop mrec ctx slotName rest
      else do
        let valueContexts ← mrec ctx sv.text_in
        let these := valueContexts.map (mkListValueMatch ctx slotName sv)
        let (more, hm) ← textListLoop mrec ctx slotName rest
        .ok (these ++ more, !valueContexts.isEmpty || hm)

/-- In-place growth of the open wildcard (`wildcard.text += …;
wildcard.value = wildcard.text` in the range branch): the open wildcard is
the last entity. -/
def mutateLastWildcard (ents : List MatchEntity) (add : Str) : List MatchEntity :=
  match ents.getLast? with
  | some e => ents.dropLast ++ [{ e with text := e.text ++ add, value := .str (e.text ++ add) }]
  | none => ents

/-- The digit loop of the RangeSlotList branch.  Threads the entity list
because the Python code mutates the open wildcard in place across
iterations.  Returns (yielded contexts, `digits_match`, final entities). -/
def digitLoop (settings : MatchSettings) (ctx : MatchContext) (slotName : Str)
    (rl : RangeSlotList) (hasWildcard : Bool) :
    List MatchEntity → List (Nat × Nat) → List MatchContext × Bool × List MatchEntity
  | ents, [] => ([], false, ents)
  | ents, (s0, e0) :: rest =>
    let numberText := (ctx.text.drop s0).take (e0 - s0)
    let n := pyIntOfStr numberText
    if rangeListInRange rl n then
      let value : PyValue :=
        match rl.multiplier with
        | some m => .num (n * m)
        | none => .int n
      let entity : MatchEntity :=
        { name := slotName, value := value, text := numberText, metadata := none,
          is_wildcard := false, is_wildcard_open := true }
      if !hasWildcard then
        let c := { ctx with text := ctx.text.drop e0, entities := ents ++ [entity] }
        let (more, _, ents') := digitLoop settings ctx slotName rl hasWildcard ents rest
        (c :: more, true, ents')
      else
        -- Wildcard consumes text before the number
        let ents2 := mutateLastWildcard ents (ctx.text.take (e0 - 1))
        let c := { ctx with
                   text := ctx.text.drop e0,
                   entities := closeWildcards (ents2 ++ [entity]) }
        let (more, _, ents') := digitLoop settings ctx slotName rl hasWildcard ents2 rest
        (c :: more, true, ents')
    else
      if settings.allow_unmatched_entities && !hasWildcard then
        -- Report out of range
        let c := { ctx with
                   text := ctx.text.drop numberText.length,
                   unmatched_entities := ctx.unmatched_entities ++ [.range slotName (.int n)] }
        let (more, dm, ents') := digitLoop settings ctx slotName rl hasWildcard ents rest
        (c :: more, dm, ents')
      else digitLoop settings ctx slotName rl hasWildcard ents rest

/-- The word-number loop of the RangeSlotList branch, over the hits of the
(language, start, stop, step) range trie. -/
def wordsLoop (mrec : MatchRec) (ctx : MatchContext) (slotName : Str)
    (hasWildcard : Bool) :
    List MatchEntity → List (Nat × Str × PyValue) →
    Except MatchError (List MatchContext × List MatchEntity)
  | ents, [] => .ok ([], ents)
  | ents, (endPos, numberText, rangeValue) :: rest =>
    let startPos := endPos - numberText.length
    if !hasWildcard && startPos > 0 then
      -- The number string is not at the start of the text
      wordsLoop mrec ctx slotName hasWildcard ents rest
    else
      let entity : MatchEntity :=
        { name := slotName, value := rangeValue, text := numberText, metadata := none,
          is_wildcard := false, is_wildcard_open := true }
      if !hasWildcard then do
        let r ← mrec { ctx with entities := ents ++ [entity] }
                  (.textChunk numberText numberText)
        let (more, ents') ← wordsLoop mrec ctx slotName hasWildcard ents rest
        .ok (r ++ more, ents')
      else do
        -- Wildcard consumes text before the number
        let ents2 := mutateLastWildcard ents (ctx.text.take startPos)
        let r ← mrec { ctx with
                       text := ctx.text.drop startPos,
                       entities := closeWildcards (ents2 ++ [entity]) }
                  (.textChunk numberText numberText)
        let (more, ents') ← wordsLoop mrec ctx slotName hasWildcard ents2 rest
        .ok (r ++ more, ents')

/-- External word-number lookup: for a language and (start, stop, step), the
`(end_pos, text, value)` hits of the cached range trie on the given text.
Stands for `_build_range_trie` + `Trie.find`, whose data comes from the
external `unicode_rbnf` engine. -/
abbrev WordsFind := Str → Int × Int × Int → Str → List (Nat × Str × PyValue)

/-- The RangeSlotList branch of `match_expression` (lines 563–767). -/
def rangeBranch (wordsFind : WordsFind) (mrec : MatchRec) (settings : MatchSettings)
    (ctx : MatchContext) (slotName : Str) (rl : RangeSlotList)
    (wildcard : Option MatchEntity) : Except MatchError (List MatchContext) :=
  let numberMatches : List (Nat × Nat) :=
    match wildcard with
    | none =>
      match matchNumberPre ctx.text with
      | some e => [(0, e)]
      | none => []
    | some _ => finditerNumbers ctx.text
  let hasWildcard := wildcard.isSome
  let digitStep :=
    if rl.digits && !numberMatches.isEmpty then
      digitLoop settings ctx slotName rl hasWildcard ctx.entities numberMatches
    else ([], false, ctx.entities)
  let digitResults := digitStep.fst
  let digitsMatch := digitStep.snd.fst
  let entsAfterDigits := digitStep.snd.snd
  do
    let wordsStep ←
      if rl.words && !digitsMatch && numberMatches.isEmpty then
        match (match rl.words_language with
               | some l => some l
               | none => settings.language) with
        | some lang =>
          wordsLoop mrec ctx slotName hasWildcard entsAfterDigits
            (wordsFind lang (rl.start, rl.stop, rl.step) ctx.text)
        | none => .ok (([] : List MatchContext), entsAfterDigits)
      else .ok (([] : List MatchContext), entsAfterDigits)
    -- `words_match` is initialized to False and never set by the source
    let wordsMatch := false
    let fallback :=
      if !digitsMatch && !wordsMatch && settings.allow_unmatched_entities then
        [{ ctx with
           entities := closeWildcards wordsStep.snd,
           unmatched_entities := ctx.unmatched_entities ++ [.text slotName [] true] }]
      else []
    .ok (digitResults ++ wordsStep.fst ++ fallback)

/-- The ListReference branch of `match_expression` (lines 429–790). -/
def matchListRef (wordsFind : WordsFind) (mrec : MatchRec) (settings : MatchSettings)
    (ctx : MatchContext) (listName slotName : Str) :
    Except MatchError (List MatchContext) :=
  match slotListsGet settings.slot_lists listName with
  | none => .error (.missingList listName)
  | some slotList =>
    let wildcard := ctx.getOpenWildcard
    match slotList with
    | .text values =>
      if ctx.text.isEmpty then .ok []
      else do
        let step ← textListLoop mrec ctx slotName values
        if !step.snd && settings.allow_unmatched_entities then
          -- Report mismatch
          .ok (step.fst ++ [{ ctx with
            entities := closeWildcards ctx.entities,
            unmatched_entities := ctx.unmatched_entities ++ [.text slotName [] true] }])
        else .ok step.fst
    | .range rl =>
      if ctx.text.isEmpty then .ok []
      else rangeBranch wordsFind mrec settings ctx slotName rl wildcard
    | .wildcard =>
      if ctx.text.isEmpty then .ok []
      else
        -- Start a wildcard entity
        .ok [{ ctx with
               entities := ctx.entities ++
                 [{ name := slotName, value := .str [], text := [], metadata := none,
                    is_wildcard := true, is_wildcard_open := true }],
               unmatched_entities := closeUnmatched ctx.unmatched_entities }]

/-- One step of `match_expression`, with the recursion (at one fuel less)
supplied as `mrec`. -/
def matchExpressionStep (wordsFind : WordsFind) (settings : MatchSettings)
    (mrec : MatchRec) (ctx : MatchContext) (expr : Expression) :
    Except MatchError (List MatchContext) :=
  match expr with
  | .textChunk ctext _ => matchTextChunk mrec settings ctx expr ctext
  | .seq t items _ =>
    match t with
    | .alternative => altFold mrec ctx items
    | .group =>
      if items.isEmpty then .ok []
      else groupFold mrec items [ctx]
    | .permutation => .error .valueError
  | .listRef listName slotName => matchListRef wordsFind mrec settings ctx listName slotName
  | .ruleRef ruleName =>
    match rulesGet settings.expansion_rules ruleName with
    | some body => mrec ctx body
    | none => .error (.missingRule ruleName)

/-- `match_expression` from `string_matcher.py`, with explicit fuel bounding
the recursion depth (the Python recursion is not structural on the
expression: open wildcards re-match the same chunk, rule references expand,
and word-number hits are re-matched as chunks).  Fuel 0 yields no contexts. -/
def matchExpression (wordsFind : WordsFind) (settings : MatchSettings) :
    Nat → MatchContext → Expression → Except MatchError (List MatchContext)
  | 0, _, _ => .ok []
  | fuel + 1, ctx, expr =>
    matchExpressionStep wordsFind settings
      (fun c e => matchExpression wordsFind settings fuel c e) ctx expr

/-! ## Trie (`src/hassil/trie.py`) -/

/-- `TrieNode`: id, optional terminal text/value, optional children map. -/
inductive TrieNode (α : Type) where
  | mk (id : Nat) (text : Option Str) (value : Option α)
       (children : Option (List (Char × TrieNode α)))

/-- Node id. -/
def TrieNode.nid : TrieNode α → Nat
  | .mk i _ _ _ => i

/-- Terminal text. -/
def TrieNode.text : TrieNode α → Option Str
  | .mk _ t _ _ => t

/-- Terminal value. -/
def TrieNode.value : TrieNode α → Option α
  | .mk _ _ v _ => v

/-- Children map. -/
def TrieNode.children : TrieNode α → Option (List (Char × TrieNode α))
  | .mk _ _ _ c => c

/-- `Trie`: children of the implicit root, and the next fresh node id. -/
structure Trie (α : Type) where
  roots : List (Char × TrieNode α)
  nextId : Nat

/-- The empty trie (`Trie.__init__`). -/
def Trie.empty : Trie α := { roots := [], nextId := 0 }

/-- Lookup in a children map. -/
def childGet (children : List (Char × TrieNode α)) (c : Char) : Option (TrieNode α) :=
  match children.find? (fun kv => kv.fst == c) with
  | some kv => some kv.snd
  | none => none

/-- Store in a children map (replace or append, like a Python dict). -/
def childSet (children : List (Char × TrieNode α)) (c : Char) (n : TrieNode α) :
    List (Char × TrieNode α) :=
  if (children.find? (fun kv => kv.fst == c)).isSome then
    children.map (fun kv => if kv.fst == c then (c, n) else kv)
  else children ++ [(c, n)]

/-- The walk of `Trie.insert`: descend the children map along the characters,
creating missing nodes, and set the terminal text/value at the last
character.  Returns the updated children map and the next fresh id. -/
def insertAux (text : Str) (value : α) :
    List Char → List (Char × TrieNode α) → Nat → List (Char × TrieNode α) × Nat
  | [], children, nid => (children, nid)
  | c :: rest, children, nid =>
    let step : TrieNode α × Nat :=
      match childGet children c with
      | some n => (n, nid)
      | none => (.mk nid none none none, nid + 1)
    let node := step.fst
    let nid1 := step.snd
    match rest with
    | [] =>
      -- last character: set terminal marker (overwriting any previous one)
      let node' : TrieNode α := .mk node.nid (some text) (some value) node.children
      (childSet children c node', nid1)
    | _ =>
      let sub := insertAux text value rest (node.children.getD []) nid1
      let node' : TrieNode α := .mk node.nid node.text node.value (some sub.fst)
      (childSet children c node', sub.snd)

/-- `Trie.insert(text, value)`. -/
def Trie.insert (t : Trie α) (text : Str) (value : α) : Trie α :=
  let r := insertAux text value text t.roots t.nextId
  { roots := r.fst, nextId := r.snd }

/-- One breadth-first step of `Trie.find`: process the queue of
(children map, position) items, yielding `(end_pos, text, value)` at each
terminal node; `visited` deduplicates node ids when `unique` is set.  `fuel`
bounds the number of processed queue items (each item enqueues at most one
item at a strictly larger position). -/
def trieFindAux (text : Str) (unique : Bool) :
    Nat → List (List (Char × TrieNode α) × Nat) → List Nat →
    List (Nat × Str × Option α)
  | 0, _, _ => []
  | _ + 1, [], _ => []
  | fuel + 1, (children, pos) :: q, visited =>
    if pos ≥ text.length then trieFindAux text unique fuel q visited
    else
      let c := text.getD pos ' '
      match childGet children c with
      | none => trieFindAux text unique fuel q visited
      | some node =>
        if visited.contains node.nid then trieFindAux text unique fuel q visited
        else
          let q' :=
            if !(node.children.getD []).isEmpty && pos < text.length then
              q ++ [(node.children.getD [], pos + 1)]
            else q
          match node.text with
          | some t =>
            let visited' := if unique then node.nid :: visited else visited
            (pos + 1, t, node.value) :: trieFindAux text unique fuel q' visited'
          | none => trieFindAux text unique fuel q' visited

/-- `Trie.find(text, unique)`: breadth-first scan seeded at every position of
the text. -/
def Trie.find (t : Trie α) (text : Str) (unique : Bool) :
    List (Nat × Str × Option α) :=
  trieFindAux text unique (text.length * text.length + text.length + 1)
    ((List.range text.length).map (fun i => (t.roots, i))) []

/-! ## Slot-list declarations (`_parse_list` and `RangeSlotList.__post_init__`,
`src/hassil/intents.py`) -/

/-- A value entry of a `values:` declaration: either a plain string or an
object with `in`/`out` (and optional context). -/
inductive ListValueDecl where
  | plain (s : Str)
  | inOut (tin : Str) (out : PyValue) (context : Option PyDict)

/-- A slot-list declaration as delivered by the YAML loader: which of the
`values` / `range` / `wildcard` keys are present. -/
structure ListDecl where
  values : Option (List ListValueDecl)
  range : Option (Int × Int × Int)
  wildcard : Option Bool

/-- Errors raised while parsing a slot-list declaration: `ValueError` from
`_parse_list`, `AssertionError` from `RangeSlotList.__post_init__`. -/
inductive ListParseError where
  | valueError
  | assertionError

/-- Declared slot lists as `_parse_list` produces them.  Parsing of value
templates is external to this fragment; `text_in` keeps the raw string of
the declaration. -/
inductive ParsedSlotList where
  | text (values : List (Str × PyValue × Option PyDict))
  | range (start stop step : Int)

/-- `RangeSlotList.__post_init__`: `assert start < stop` and
`assert step > 0`. -/
def mkRangeSlotList (start stop step : Int) : Except ListParseError ParsedSlotList :=
  if !(start < stop : Bool) then .error .assertionError
  else if !(step > 0 : Bool) then .error .assertionError
  else .ok (.range start stop step)

/-- `_parse_list(list_dict)` from `intents.py` (lines 247–286): a `values`
key gives a text list, a `range` key gives a (validated) range list, anything
else — including a `wildcard: true` declaration — raises `ValueError`. -/
def parseList (d : ListDecl) : Except ListParseError ParsedSlotList :=
  match d.values with
  | some vs =>
    .ok (.text (vs.map fun v =>
      match v with
      | .plain s => (s, .str s, none)
      | .inOut tin out c => (tin, out, c)))
  | none =>
    match d.range with
    | some (f, t, s) => mkRangeSlotList f t s
    | none => .error .valueError

/-! ## Permutation expansion (`src/hassil/parse_expression.py`) -/

/-- The unpacking `while` loop at the top of `add_spaces_between_items`:
unwrap single-item GROUP sequences. -/
def unpackSingle : Expression → Expression
  | .seq .group [x] _ => unpackSingle x
  | e => e

/-- Whether an expression is an optional sequence
(`isinstance(previous_item, Sequence) and previous_item.is_optional`). -/
def isOptionalSeq : Expression → Bool
  | .seq _ _ opt => opt
  | _ => false

/-- The fix applied to an optional that precedes another permuted item:
each non-empty branch gets a trailing space (empty text chunks are kept
as-is; text chunks are right-stripped first). -/
def fixOptionalItems (items : List Expression) : List Expression :=
  items.map fun optItem =>
    match optItem with
    | .textChunk t o =>
      if t.isEmpty then .textChunk t o
      else .seq .group [.textChunk (pyRstrip t) o, spaceChunk] false
    | e => .seq .group [e, spaceChunk] false

/-- The item loop of `add_spaces_between_items`, after unpacking: emit the
first item as-is; before each later item either rewrite the preceding
optional to carry trailing spaces, or insert a single-space chunk. -/
def spacedLoop : List Expression → List Expression
  | [] => []
  | [x] => [x]
  | x :: y :: rest =>
    if isOptionalSeq x then
      (match x with
       | .seq _ xitems _ => Expression.seq .alternative (fixOptionalItems xitems) true
       | e => e) :: spacedLoop (y :: rest)
    else
      x :: spaceChunk :: spacedLoop (y :: rest)

/-- `add_spaces_between_items(items)` from `parse_expression.py`
(lines 361–418). -/
def addSpacesBetweenItems (items : List Expression) : List Expression :=
  spacedLoop (items.map unpackSingle)

/-- The index-order selections of a list: each element together with the rest
of the list, in the order `itertools.permutations` picks them. -/
def selections : List α → List (α × List α)
  | [] => []
  | x :: xs => (x, xs) :: (selections xs).map (fun p => (p.fst, x :: p.snd))

/-- `itertools.permutations(items)` (all orderings, in index-lexicographic
order); `fuel` is the length of the list. -/
def permsAux : Nat → List α → List (List α)
  | 0, _ => [[]]
  | fuel + 1, l =>
    if l.isEmpty then [[]]
    else (selections l).flatMap (fun p => (permsAux fuel p.snd).map (fun q => p.fst :: q))

/-- All orderings of a list. -/
def perms (l : List α) : List (List α) := permsAux l.length l

/-- The permutation finalization of `parse_group_or_alt_or_perm`
(lines 142–151): an ALTERNATIVE over one spaced GROUP per ordering of the
permuted sub-sequences. -/
def finalizePermutation (items : List Expression) : Expression :=
  .seq .alternative
    ((perms items).map (fun p => .seq .group (addSpacesBetweenItems p) false))
    false

/-! ## Result shaping (`src/hassil/recognize.py`) -/

/-- `RecognizeResult` (the fields the checked claims read; the matched
intent and sentence are identified by name). -/
structure RecognizeResult where
  intent : Str
  entities : List (Str × MatchEntity)
  entities_list : List MatchEntity
  response : Option Str
  context : PyDict
  unmatched_entities_list : List UnmatchedEntity
  text_chunks_matched : Nat
  intent_metadata : Option PyDict

/-- `{entity.name: entity for entity in entities}`: a name-keyed dictionary
in first-occurrence key order, later duplicates overwriting. -/
def entityDict (es : List MatchEntity) : List (Str × MatchEntity) :=
  es.foldl
    (fun acc e =>
      if acc.any (fun kv => kv.fst == e.name) then
        acc.map (fun kv => if kv.fst == e.name then (kv.fst, e) else kv)
      else acc ++ [(e.name, e)])
    []

/-- Lookup in the entity dictionary (`result.entities.get(name)`). -/
def entityDictGet (d : List (Str × MatchEntity)) (key : Str) : Option MatchEntity :=
  match d.find? (fun kv => kv.fst == key) with
  | some kv => some kv.snd
  | none => none

/-- A modelled value read as entity text (`actual_value.get("text", "")`). -/
def pyValueAsStr : PyValue → Str
  | .str s => s
  | _ => []

/-- A modelled value read as entity metadata. -/
def pyValueAsDict : PyValue → Option PyDict
  | .dict kvs => some kvs
  | _ => none

/-- `_copy_and_check_required_context` from `recognize.py` (lines 442–551):
walk the required-context entries, collecting copy-to-slot entities; on a
failed entry either record a `"<missing>"` unmatched entity (when unmatched
entities are allowed) or fail. -/
def copyCheckLoop (allow : Bool) :
    List (Str × PyValue) → MatchContext → List MatchEntity →
    Option (MatchContext × List MatchEntity)
  | [], ctx, slots => some (ctx, slots)
  | (key, cval0) :: rest, ctx, slots =>
    let unpacked : Str × PyValue :=
      match cval0 with
      | .dict kvs =>
        let cts : Str :=
          match dictGet kvs (str "slot") with
          | .str s => s
          | other => if pyTruthy other then key else []
        (cts, dictGet kvs (str "value"))
      | v => ([], v)
    let cts := unpacked.fst
    let cval := unpacked.snd
    let actual : PyValue × Str × Option PyDict :=
      match dictGet ctx.intent_context key with
      | .dict kvs =>
        (dictGet kvs (str "value"), pyValueAsStr (dictGet kvs (str "text")),
         pyValueAsDict (dictGet kvs (str "metadata")))
      | v => (v, [], none)
    let atext := actual.snd.fst
    let ameta := actual.snd.snd
    let av :=
      if allow && pyBeq actual.fst .none then
        match ctx.unmatched_entities.find? (fun u =>
            match u with
            | .text n _ _ => n == key
            | .range _ _ => false) with
        | some (.text _ t _) => .str t
        | _ => actual.fst
      else actual.fst
    let slots' :=
      if !cts.isEmpty then
        slots ++ [{ name := cts, value := av, text := atext, metadata := ameta,
                    is_wildcard := false, is_wildcard_open := true }]
      else slots
    if pyBeq av cval && !pyBeq cval .none then copyCheckLoop allow rest ctx slots'
    else if pyBeq cval .none && !pyBeq av .none then copyCheckLoop allow rest ctx slots'
    else if !pyIsStr cval && pyIsNonStrCollection cval && pyContains cval av then
      copyCheckLoop allow rest ctx slots'
    else if allow then
      let ctx' :=
        if ctx.unmatched_entities.any (fun u => u.name == key) then ctx
        else { ctx with unmatched_entities :=
                 ctx.unmatched_entities ++ [.text key (str "<missing>") false] }
      copyCheckLoop allow rest ctx' slots
    else none

/-- Close the still-open unmatched text entity (the last one) on the
remaining input. -/
def closeLastUnmatched (um : List UnmatchedEntity) (add : Str) : List UnmatchedEntity :=
  match um.getLast? with
  | some (.text n t _) => um.dropLast ++ [.text n (t ++ add) false]
  | _ => um

/-- Close the still-open wildcard (the last entity) on the remaining input. -/
def closeLastWildcard (es : List MatchEntity) (add : Str) : List MatchEntity :=
  match es.getLast? with
  | some e => es.dropLast ++
      [{ e with
         text := e.text ++ add,
         value := .str (e.text ++ add),
         is_wildcard_open := false }]
  | none => es

/-- The closing step of `_process_match_contexts`: absorb any remaining text
into the still-open unmatched entity or wildcard. -/
def closeContext (ctx : MatchContext) : MatchContext :=
  let finalText := pyStrip ctx.text
  if !finalText.isEmpty then
    match ctx.getOpenEntity with
    | some _ =>
      { ctx with
        text := [],
        unmatched_entities := closeLastUnmatched ctx.unmatched_entities finalText }
    | none =>
      match ctx.getOpenWildcard with
      | some _ =>
        { ctx with text := [], entities := closeLastWildcard ctx.entities finalText }
      | none => ctx
  else ctx

/-- The body of `_process_match_contexts` after the closing step: keep only
matches, enforce the excluded/required context, clean wildcard entities, add
the fixed and context slots, and shape the result. -/
def processClosed (intentName : Str) (intentData : IntentData)
    (defaultResponse : Option Str) (allow : Bool) (ctx1 : MatchContext) :
    Option RecognizeResult :=
  if !ctx1.isMatch then none
  else if !intentData.excludes_context.isEmpty &&
      !checkExcludedContext intentData.excludes_context ctx1.intent_context then none
  else
    let reqStep : Option (MatchContext × List MatchEntity) :=
      if !intentData.requires_context.isEmpty then
        copyCheckLoop allow intentData.requires_context ctx1 []
      else some (ctx1, [])
    match reqStep with
    | none => none
    | some (ctx2, slotsFromContext) =>
      -- Clean up wildcard entities
      let cleaned := ctx2.entities.map fun e =>
        if e.is_wildcard then
          { e with text := pyStrip e.text,
                   value := match e.value with
                            | .str s => .str (pyStrip s)
                            | v => v }
        else e
      let entityNames := cleaned.map (fun e => e.name)
      -- Add fixed entities, then context slots (both against the same set)
      let withSlots := cleaned ++
        (intentData.slots.filter (fun kv => !entityNames.contains kv.fst)).map
          (fun kv => mkMatchEntity kv.fst kv.snd [])
      let allEntities := withSlots ++
        slotsFromContext.filter (fun e => !entityNames.contains e.name)
      let response :=
        match intentData.response with
        | some r => some r
        | none => defaultResponse
      some
        { intent := intentName,
          entities := entityDict allEntities,
          entities_list := allEntities,
          response := response,
          context := ctx2.intent_context,
          unmatched_entities_list := ctx2.unmatched_entities,
          text_chunks_matched := ctx2.text_chunks_matched,
          intent_metadata :=
            match ctx2.intent_data with
            | some d => d.metadata
            | none => none }

/-- The per-context body of `_process_match_contexts` (lines 292–385). -/
def processMatchContext (intentName : Str) (intentData : IntentData)
    (defaultResponse : Option Str) (allow : Bool) (ctx : MatchContext) :
    Option RecognizeResult :=
  processClosed intentName intentData defaultResponse allow (closeContext ctx)

/-- `_process_match_contexts`: shape every candidate context that survives. -/
def processMatchContexts (intentName : Str) (intentData : IntentData)
    (defaultResponse : Option Str) (allow : Bool)
    (ctxs : List MatchContext) : List RecognizeResult :=
  ctxs.filterMap (processMatchContext intentName intentData defaultResponse allow)

/-! ## The regex pre-filter stage of `recognize_all`
(`src/hassil/recognize.py`, lines 216–244) -/

/-- One surviving `(intent_data, intent_sentences)` pair of the
`available_intents` list (the intent and match settings are irrelevant to the
filter and omitted). -/
structure AvailPair where
  data : IntentData
  sentences : Option (List Expression)

/-- The `matching_intents` accumulation: intent-data blocks that opt out of
the filter keep all sentences; others keep the sentences whose compiled
regex matches the input, and are dropped when none does.  `rm s` models
`intent_sentence.pattern.match(text) is not None` for the fixed input text
(`Sentence.compile` lives outside this source tree). -/
def regexFilterMatching (rm : Expression → Bool) :
    List AvailPair → List AvailPair
  | [] => []
  | a :: rest =>
    if !a.data.settings.filter_with_regex then
      { data := a.data, sentences := none } :: regexFilterMatching rm rest
    else
      let ms := a.data.sentences.filter rm
      if !ms.isEmpty then
        { data := a.data, sentences := some ms } :: regexFilterMatching rm rest
      else regexFilterMatching rm rest

/-- The whole filter block: `if matching_intents: available_intents =
matching_intents` — when the filter leaves nothing, the unfiltered list is
kept. -/
def regexFilterStage (rm : Expression → Bool) (available : List AvailPair) :
    List AvailPair :=
  let matching := regexFilterMatching rm available
  if !matching.isEmpty then matching else available

/-- The guard of the filter block: it only runs when the intents settings
enable it and unmatched entities are disabled. -/
def recognizeAllFilter (filterWithRegex allowUnmatched : Bool)
    (rm : Expression → Bool) (available : List AvailPair) : List AvailPair :=
  if filterWithRegex && !allowUnmatched then regexFilterStage rm available
  else available

/-- `intent_sentences = intent_sentences or intent_data.sentences`: the
sentences of a surviving pair that are handed to the string matcher. -/
def passedSentences (a : AvailPair) : List Expression :=
  match a.sentences with
  | none => a.data.sentences
  | some [] => a.data.sentences
  | some l => l

/-! ## `recognize_best` (`src/hassil/recognize.py`, lines 554–651) -/

/-- `_get_result_score(result)`: `(wildcards, -text_matched)`. -/
def getResultScore (r : RecognizeResult) : Nat × Int :=
  ((r.entities_list.filter (fun e => e.is_wildcard)).length,
   -(r.text_chunks_matched : Int))

/-- Lexicographic order on scores (how Python compares the key tuples). -/
def scoreLe (a b : Nat × Int) : Bool :=
  decide (a.fst < b.fst) || (decide (a.fst = b.fst) && decide (a.snd ≤ b.snd))

/-- Stable insertion into a score-sorted list (equal keys keep their
original order, as Python's stable `sorted`). -/
def insertByScore (x : RecognizeResult) : List RecognizeResult → List RecognizeResult
  | [] => [x]
  | y :: ys =>
    if scoreLe (getResultScore x) (getResultScore y) then x :: y :: ys
    else y :: insertByScore x ys

/-- `sorted(best_results, key=_get_result_score)`. -/
def sortByScore : List RecognizeResult → List RecognizeResult
  | [] => []
  | x :: xs => insertByScore x (sortByScore xs)

/-- Loop state of `recognize_best`: `(metadata_found, slot_found,
best_results, best_slot_quality)`. -/
structure BestState where
  metadataFound : Bool
  slotFound : Bool
  bestResults : List RecognizeResult
  bestSlotQuality : Option Nat

/-- The accumulation loop of `recognize_best` over the results of
`recognize_all`. -/
def recognizeBestLoop (bestMetadataKey : Option Str) (bestSlotName : Option Str) :
    List RecognizeResult → BestState → BestState
  | [], st => st
  | result :: rest, st =>
    -- Prioritize intents with a specific metadata key
    let metaStep : Option BestState :=
      match bestMetadataKey with
      | some key =>
        let isMetadata :=
          match result.intent_metadata with
          | some m => pyTruthy (dictGet m key)
          | none => false
        if st.metadataFound && !isMetadata then none
        else if !st.metadataFound && isMetadata then
          some { metadataFound := true, slotFound := false, bestResults := [],
                 bestSlotQuality := none }
        else some st
      | none => some st
    match metaStep with
    | none => recognizeBestLoop bestMetadataKey bestSlotName rest st
    | some st1 =>
      -- Prioritize results with a specific slot
      let slotStep : Option BestState :=
        if (match bestSlotName with
            | some s => !s.isEmpty
            | none => false) then
          let slotName := bestSlotName.getD []
          let entity := entityDictGet result.entities slotName
          let isSlot :=
            match entity with
            | some e => !e.is_wildcard
            | none => false
          if st1.slotFound && !isSlot then none
          else
            let st2 :=
              if !st1.slotFound && isSlot then { st1 with slotFound := true, bestResults := [] }
              else st1
            match entity with
            | some e =>
              if isSlot && pyIsStr e.value then
                let quality := e.text.length
                match st2.bestSlotQuality with
                | none => some { st2 with bestSlotQuality := some quality, bestResults := [] }
                | some best =>
                  if quality > best then
                    some { st2 with bestSlotQuality := some quality, bestResults := [] }
                  else if quality < best then none
                  else some st2
              else some st2
            | none => some st2
        else some st1
      match slotStep with
      | none => recognizeBestLoop bestMetadataKey bestSlotName rest st1
      | some st3 =>
        recognizeBestLoop bestMetadataKey bestSlotName rest
          { st3 with bestResults := st3.bestResults ++ [result] }

/-- `recognize_best` over the (already produced) results of `recognize_all`:
accumulate with the two priority passes, then return the first element of
the stable sort by `_get_result_score`. -/
def recognizeBest (results : List RecognizeResult)
    (bestMetadataKey : Option Str) (bestSlotName : Option Str) :
    Option RecognizeResult :=
  let st := recognizeBestLoop bestMetadataKey bestSlotName results
    { metadataFound := false, slotFound := false, bestResults := [],
      bestSlotQuality := none }
  if !st.bestResults.isEmpty then (sortByScore st.bestResults).head?
  else none

/-! ## Claim-specific definitions and concrete fixtures -/

/-- The match entity appended by the digit path of the RangeSlotList branch
for a recognized number `n` with matched text `numText`. -/
def rangeDigitEntity (slotName : Str) (rl : RangeSlotList) (n : Int) (numText : Str) :
    MatchEntity :=
  { name := slotName,
    value := match rl.multiplier with
             | some m => .num (n * m)
             | none => .int n,
    text := numText, metadata := none, is_wildcard := false, is_wildcard_open := true }

/-- The orderings of a parsed permutation (the items of the produced
ALTERNATIVE). -/
def permutationGroups : Expression → List Expression
  | .seq .alternative gs _ => gs
  | _ => []

/-- The item list of a GROUP expression. -/
def groupItems : Expression → List Expression
  | .seq .group its _ => its
  | _ => []

/-- Formalization of the claimed spacing: in every ordering produced for a
permutation, a single-space chunk sits at the head and at the tail (these are
the head of the first permuted sub-sequence and the tail of the last one, so
they are necessary consequences of inserting a space at the head and tail of
each sub-sequence). -/
def headTailSpaced (e : Expression) : Prop :=
  ∀ g ∈ permutationGroups e,
    (groupItems g).head? = some spaceChunk ∧ (groupItems g).getLast? = some spaceChunk

/-- Fixture: the sub-sequence the parser builds for the permuted item `a`
of the template `(a;b)`. -/
def permItemA : Expression := .seq .group [.textChunk (str "a") (str "a")] false

/-- Fixture: the sub-sequence for the permuted item `b` of `(a;b)`. -/
def permItemB : Expression := .seq .group [.textChunk (str "b") (str "b")] false

/-- Fixture: a sentence whose compiled regex will not match the input. -/
def c3Sentence : Expression := .textChunk (str "x") (str "x")

/-- Fixture: an intent-data block subject to the regex filter, with the one
sentence `c3Sentence`. -/
def c3Data : IntentData :=
  { sentences := [c3Sentence], slots := [], requires_context := [],
    excludes_context := [], response := none, metadata := none,
    settings := { filter_with_regex := true } }

/-- Fixture: the corresponding `available_intents` entry. -/
def c3Pair : AvailPair := { data := c3Data, sentences := none }

/-- Fixture: a recognition result with one wildcard entity and 5 matched
chunk characters. -/
def c4ResultA : RecognizeResult :=
  { intent := str "A", entities := [],
    entities_list := [{ name := str "w", value := .str (str "t"), text := str "t",
                        metadata := none, is_wildcard := true, is_wildcard_open := false }],
    response := none, context := [], unmatched_entities_list := [],
    text_chunks_matched := 5, intent_metadata := none }

/-- Fixture: a wildcard-free result with 3 matched chunk characters. -/
def c4ResultB : RecognizeResult :=
  { intent := str "B", entities := [], entities_list := [],
    response := none, context := [], unmatched_entities_list := [],
    text_chunks_matched := 3, intent_metadata := none }

/-- Fixture: a percentage range list 0–100 with unit step. -/
def c2Range : RangeSlotList :=
  { start := 0, stop := 100, step := 1, digits := true, words := true,
    words_language := none, multiplier := none }

/-- Fixture: match settings exposing `c2Range` as the slot list `pct`. -/
def c2Settings : MatchSettings :=
  { slot_lists := [(str "pct", .range c2Range)], expansion_rules := [],
    ignore_whitespace := false, allow_unmatched_entities := false, language := none }

/-- Fixture: a fresh context on the input `75 `. -/
def c2Ctx : MatchContext :=
  { text := str "75 ", entities := [], intent_context := [], is_start_of_word := true,
    unmatched_entities := [], text_chunks_matched := 0, intent_data := none }

/-- Fixture: a closed wildcard entity with text `x`. -/
def c7Entity : MatchEntity :=
  { name := str "a", value := .str (str "x"), text := str "x", metadata := none,
    is_wildcard := true, is_wildcard_open := false }

/-- Fixture: a fully consumed context carrying `c7Entity`. -/
def c7Ctx : MatchContext :=
  { text := [], entities := [c7Entity], intent_context := [], is_start_of_word := true,
    unmatched_entities := [], text_chunks_matched := 0, intent_data := none }

/-- Fixture: a plain intent-data block with no slots or context conditions. -/
def c7Data : IntentData :=
  { sentences := [], slots := [], requires_context := [], excludes_context := [],
    response := none, metadata := none, settings := { filter_with_regex := false } }

/-- Fixture: a non-empty closed wildcard entity. -/
def c1Entity : MatchEntity :=
  { name := str "w", value := .str (str "hi"), text := str "hi", metadata := none,
    is_wildcard := true, is_wildcard_open := false }

/-- Fixture: the context carrying `c1Entity`. -/
def c1Ctx : MatchContext :=
  { text := str " ", entities := [c1Entity],
    intent_context := [], is_start_of_word := true,
    unmatched_entities := [.text (str "u") (str "rest") false],
    text_chunks_matched := 2, intent_data := none }

/-! ## Theorems -/

/-- `MatchContext.is_match` holds exactly when the remaining text is empty
after punctuation removal and stripping, every wildcard entity has non-blank
text, and every unmatched text entity has non-blank text. -/
theorem isMatch_iff (ctx : MatchContext) :
    ctx.isMatch = true ↔
      (pyStrip (removePunctAll ctx.text) = [] ∧
       (∀ e ∈ ctx.entities, e.is_wildcard = true → pyStrip e.text ≠ []) ∧
       (∀ u ∈ ctx.unmatched_entities, ∀ n t o, u = .text n t o → pyStrip t ≠ [])) := by
  unfold MatchContext.isMatch
  constructor
  · intro h
    split at h
    · exact absurd h (by simp)
    · next h1 =>
      split at h
      · exact absurd h (by simp)
      · next h2 =>
        split at h
        · exact absurd h (by simp)
        · next h3 =>
          refine ⟨?_, ?_, ?_⟩
          · simpa [List.isEmpty_iff] using h1
          · intro e he hw hempty
            exact h2 (List.any_eq_true.mpr ⟨e, he, by rw [hw, hempty]; rfl⟩)
          · intro u hu n t o hut hempty
            refine h3 (List.any_eq_true.mpr ⟨u, hu, ?_⟩)
            subst hut
            show List.isEmpty (pyStrip t) = true
            rw [hempty]
            rfl
  · rintro ⟨h1, h2, h3⟩
    have b1 : (pyStrip (removePunctAll ctx.text)).isEmpty = true := by simp [h1]
    rw [if_neg (by simp [b1])]
    rw [if_neg ?hw, if_neg ?hu]
    case hw =>
      intro hany
      obtain ⟨e, he, hb⟩ := List.any_eq_true.mp hany
      rw [Bool.and_eq_true] at hb
      exact h2 e he hb.1 (List.isEmpty_iff.mp hb.2)
    case hu =>
      intro hany
      obtain ⟨u, hu, hb⟩ := List.any_eq_true.mp hany
      cases u with
      | text n t o => exact h3 (.text n t o) hu n t o rfl (List.isEmpty_iff.mp hb)
      | range n v => simp at hb

/-- C1: for every `MatchContext`, `is_match` holds iff the remaining text is
empty after removing punctuation and stripping whitespace, every wildcard
entity's text is non-empty after stripping, and every unmatched text
entity's text is non-empty after stripping. -/
theorem c1_is_match_characterization (ctx : MatchContext) :
    ctx.isMatch = true ↔
      (pyStrip (removePunctAll ctx.text) = [] ∧
       (∀ e ∈ ctx.entities, e.is_wildcard = true → pyStrip e.text ≠ []) ∧
       (∀ u ∈ ctx.unmatched_entities, ∀ n t o, u = .text n t o → pyStrip t ≠ [])) :=
  isMatch_iff ctx

/-- C1 witness: the characterization evaluated on a concrete matching
context. -/
theorem c1_is_match_characterization_witness :
    pyStrip (removePunctAll c1Ctx.text) = [] ∧
    (∀ e ∈ c1Ctx.entities, e.is_wildcard = true → pyStrip e.text ≠ []) ∧
    (∀ u ∈ c1Ctx.unmatched_entities, ∀ n t o, u = .text n t o → pyStrip t ≠ []) :=
  (c1_is_match_characterization c1Ctx).mp (by decide)

/-- C10: matching a GROUP sequence with an empty item list yields no
successor contexts at all, for any context (even one whose remaining text is
empty) and any settings. -/
theorem c10_empty_group_yields_nothing (wordsFind : WordsFind)
    (settings : MatchSettings) (fuel : Nat) (ctx : MatchContext) (opt : Bool) :
    matchExpression wordsFind settings fuel ctx (.seq .group [] opt) = .ok [] := by
  cases fuel with
  | zero => rfl
  | succ n => rfl

/-- C6 (code evaluation): inserting the same key twice overwrites the single
terminal node, so a non-unique `find` observes only the second value —
contradicting `tests/test_trie.py::test_multiple_values`, which expects
`[(14, "test", 1), (14, "test", 2)]`. -/
theorem c6_duplicate_insert_overwrites :
    ((Trie.empty.insert (str "test") (1 : Int)).insert (str "test") 2).find
        (str "this is a test") false = [(14, str "test", some 2)] := by
  decide

/-- C8 (code evaluation): `_parse_list` raises `ValueError` on a
`wildcard: true` declaration (no `wildcard` branch exists), and a range with
zero step or with `start ≥ stop` raises `AssertionError` (from the
`__post_init__` asserts), not `ValueError`. -/
theorem c8_parse_list_eval :
    parseList { values := none, range := none, wildcard := some true }
        = .error .valueError ∧
    parseList { values := none, range := some (1, 100, 0), wildcard := none }
        = .error .assertionError ∧
    parseList { values := none, range := some (5, 5, 1), wildcard := none }
        = .error .assertionError :=
  ⟨rfl, rfl, rfl⟩

/-- Whitespace collapse is idempotent, jointly for both entry states of the
run flag. -/
theorem collapseWsAux_idem (l : Str) :
    collapseWsAux false (collapseWsAux true l) = collapseWsAux true l ∧
    collapseWsAux true (collapseWsAux true l) = collapseWsAux true l ∧
    collapseWsAux false (collapseWsAux false l) = collapseWsAux false l := by
  induction l with
  | nil => exact ⟨rfl, rfl, rfl⟩
  | cons c cs ih =>
    by_cases hc : isPySpace c = true
    · have e1 : collapseWsAux true (c :: cs) = collapseWsAux true cs := by
        simp [collapseWsAux, hc]
      have e2 : collapseWsAux false (c :: cs) = ' ' :: collapseWsAux true cs := by
        simp [collapseWsAux, hc]
      refine ⟨?_, ?_, ?_⟩
      · rw [e1, ih.1]
      · rw [e1, ih.2.1]
      · rw [e2]
        have hsp : isPySpace ' ' = true := by decide
        show collapseWsAux false (' ' :: collapseWsAux true cs) = _
        simp only [collapseWsAux, hsp, if_true, Bool.false_eq_true, if_false]
        rw [ih.2.1]
    · have e3 : ∀ b, collapseWsAux b (c :: cs) = c :: collapseWsAux false cs := by
        intro b
        cases b <;> simp [collapseWsAux, hc]
      have e4 : ∀ b, collapseWsAux b (c :: collapseWsAux false cs)
          = c :: collapseWsAux false (collapseWsAux false cs) := by
        intro b
        cases b <;> simp [collapseWsAux, hc]
      refine ⟨?_, ?_, ?_⟩ <;> rw [e3, e4, ih.2.2]

/-- `normalize_whitespace` is idempotent. -/
theorem normalizeWhitespace_idem (s : Str) :
    normalizeWhitespace (normalizeWhitespace s) = normalizeWhitespace s :=
  (collapseWsAux_idem s).2.2

/-- C9: `normalize_text` is idempotent.  The external NFC step is assumed
idempotent and whitespace-collapse preserving (both hold of Unicode NFC:
canonical composition never produces whitespace from non-whitespace and has
no composition involving U+0020). -/
theorem c9_normalize_text_idempotent (nfc : Str → Str) (x : Str)
    (hidem : ∀ s, nfc (nfc s) = nfc s)
    (hpres : ∀ s, normalizeWhitespace s = s → normalizeWhitespace (nfc s) = nfc s) :
    normalizeText nfc (normalizeText nfc x) = normalizeText nfc x := by
  unfold normalizeText
  have h1 : normalizeWhitespace (nfc (normalizeWhitespace x))
      = nfc (normalizeWhitespace x) :=
    hpres _ (normalizeWhitespace_idem x)
  rw [h1, hidem]

/-- C9 witness: the idempotence law applied with the identity in place of
NFC on a concrete doubly spaced string. -/
theorem c9_normalize_text_idempotent_witness :
    normalizeText id (normalizeText id (str "a  b")) = normalizeText id (str "a  b") :=
  c9_normalize_text_idempotent id (str "a  b") (fun _ => rfl) (fun _ h => h)

/-- `selections` keeps the length. -/
theorem selections_length (l : List α) : (selections l).length = l.length := by
  induction l with
  | nil => rfl
  | cons x xs ih => simp [selections, ih]

/-- Every selection removes exactly one element. -/
theorem selections_snd_length (l : List α) (p : α × List α) (hp : p ∈ selections l) :
    p.snd.length + 1 = l.length := by
  induction l generalizing p with
  | nil => simp [selections] at hp
  | cons x xs ih =>
    simp only [selections, List.mem_cons, List.mem_map] at hp
    rcases hp with h | ⟨q, hq, rfl⟩
    · subst h; simp
    · have := ih q hq
      simp only [List.length_cons]
      omega

/-- Length of a `flatMap` whose pieces all have the same length. -/
theorem length_flatMap_const (l : List β) (f : β → List γ) (k : Nat)
    (h : ∀ p ∈ l, (f p).length = k) : (l.flatMap f).length = l.length * k := by
  induction l with
  | nil => simp
  | cons x xs ih =>
    have hx := h x (List.mem_cons_self x xs)
    have hxs := ih (fun p hp => h p (List.mem_cons_of_mem x hp))
    simp only [List.flatMap_cons, List.length_append, hx, hxs, List.length_cons]
    ring

/-- `permsAux` produces `n!` orderings of a length-`n` list. -/
theorem permsAux_length (n : Nat) : ∀ (l : List α), l.length = n →
    (permsAux n l).length = Nat.factorial n := by
  induction n with
  | zero => intro l h; rfl
  | succ n ih =>
    intro l h
    have hne : l.isEmpty = false := by
      cases l
      · simp at h
      · rfl
    simp only [permsAux, hne, Bool.false_eq_true, if_false]
    rw [length_flatMap_const _ _ (Nat.factorial n)]
    · rw [selections_length, h, Nat.factorial_succ]
    · intro p hp
      rw [List.length_map]
      exact ih p.snd (by have := selections_snd_length l p hp; omega)

/-- All `n!` orderings are produced. -/
theorem perms_length (l : List α) : (perms l).length = Nat.factorial l.length :=
  permsAux_length l.length l rfl

/-- On sub-sequences none of which unpacks to an optional, the spacing loop
is exactly interspersing single-space chunks between consecutive items. -/
theorem spacedLoop_intersperse (xs : List Expression)
    (h : ∀ e ∈ xs, isOptionalSeq e = false) :
    spacedLoop xs = List.intersperse spaceChunk xs := by
  induction xs with
  | nil => rfl
  | cons x ys ih =>
    cases ys with
    | nil => rfl
    | cons y rest =>
      have hx : isOptionalSeq x = false := h x (List.mem_cons_self _ _)
      have ih' := ih (fun e he => h e (List.mem_cons_of_mem x he))
      simp only [spacedLoop, hx, Bool.false_eq_true, if_false]
      rw [ih']
      rfl

/-- C5 counterexample: for the permutation items of the template `(a;b)`,
the produced orderings do *not* carry a single-space chunk at the head and
tail of each sub-sequence — the first ordering starts with the chunk `a`
itself, not a space. -/
theorem c5_counterexample_no_head_tail_spaces :
    ¬ headTailSpaced (finalizePermutation [permItemA, permItemB]) := by
  intro h
  have hm := h (.seq .group
      [.textChunk (str "a") (str "a"), spaceChunk, .textChunk (str "b") (str "b")] false)
    (List.Mem.head _)
  obtain ⟨hhead, _⟩ := hm
  simp [groupItems, spaceChunk, str] at hhead

/-- C5 (amended): parsing a permutation produces an Alternative with one
spaced group per ordering (all `n!` of them), and the spacing inserts a
single-space chunk *between* consecutive sub-sequences (after unwrapping
single-item groups), not at their head and tail; optionals receive the space
inside their branches instead. -/
theorem c5_permutation_amended (items : List Expression) :
    finalizePermutation items =
      .seq .alternative
        ((perms items).map (fun p => .seq .group (addSpacesBetweenItems p) false))
        false
    ∧ (perms items).length = Nat.factorial items.length
    ∧ ∀ p : List Expression, (∀ e ∈ p, isOptionalSeq (unpackSingle e) = false) →
        addSpacesBetweenItems p = List.intersperse spaceChunk (p.map unpackSingle) :=
  ⟨rfl, perms_length items, fun _ hp => by
      unfold addSpacesBetweenItems
      exact spacedLoop_intersperse _ (fun e he => by
        obtain ⟨x, hx, rfl⟩ := List.mem_map.mp he
        exact hp x hx)⟩

/-- C5 witness: the amended statement evaluated on the two permuted
sub-sequences of `(a;b)`. -/
theorem c5_permutation_amended_witness :
    addSpacesBetweenItems [permItemA, permItemB]
      = List.intersperse spaceChunk ([permItemA, permItemB].map unpackSingle)
    ∧ (perms [permItemA, permItemB]).length = Nat.factorial 2 :=
  ⟨(c5_permutation_amended [permItemA, permItemB]).2.2 [permItemA, permItemB]
      (by
        intro e he
        rcases List.mem_cons.mp he with rfl | he2
        · rfl
        rcases List.mem_cons.mp he2 with rfl | he3
        · rfl
        · cases he3),
   (c5_permutation_amended [permItemA, permItemB]).2.1⟩

/-- C3 counterexample: with `filter_with_regex` enabled, unmatched entities
disabled, and a single intent-data block whose only sentence fails the regex
test, the filter leaves `matching_intents` empty and the fallback
`if matching_intents:` keeps the unfiltered list — so the failing sentence is
still passed to the string matcher, contradicting the claim that it is
excluded. -/
theorem c3_regex_filter_counterexample :
    c3Sentence ∈ (recognizeAllFilter true false (fun _ => false) [c3Pair]).flatMap
      passedSentences :=
  List.Mem.head _

/-- Members of the `matching_intents` accumulation are exempt blocks or carry
a non-empty list of regex-matching sentences. -/
theorem mem_regexFilterMatching (rm : Expression → Bool) :
    ∀ (avail : List AvailPair) (a : AvailPair), a ∈ regexFilterMatching rm avail →
      a.data.settings.filter_with_regex = false ∨
      ∃ ms, a.sentences = some ms ∧ ms.isEmpty = false ∧ ∀ s ∈ ms, rm s = true := by
  intro avail
  induction avail with
  | nil => intro a ha; simp [regexFilterMatching] at ha
  | cons x rest ih =>
    intro a ha
    rw [regexFilterMatching] at ha
    split at ha
    · next hexempt =>
      rcases List.mem_cons.mp ha with rfl | hmem
      · left
        simpa using hexempt
      · exact ih a hmem
    · next hsubject =>
      by_cases hne : (List.filter rm x.data.sentences).isEmpty = false
      · simp only [hne, Bool.not_false, if_true] at ha
        rcases List.mem_cons.mp ha with rfl | hmem
        · right
          exact ⟨x.data.sentences.filter rm, rfl, hne,
            fun s hs => (List.mem_filter.mp hs).2⟩
        · exact ih a hmem
      · have hne' : (List.filter rm x.data.sentences).isEmpty = true := by
          cases h' : (List.filter rm x.data.sentences).isEmpty
          · exact absurd h' hne
          · rfl
        simp only [hne', Bool.not_true, if_false] at ha
        exact ih a ha

/-- C3 (amended): provided the regex filter leaves at least one surviving
intent-data entry, every sentence of a filter-subject entry that reaches the
string matcher has a matching regex; when the filter eliminates everything,
the unfiltered sentence set is used instead (the fallback refuted above). -/
theorem c3_regex_filter_amended (rm : Expression → Bool) (available : List AvailPair)
    (h : regexFilterMatching rm available ≠ []) :
    ∀ a ∈ recognizeAllFilter true false rm available,
      a.data.settings.filter_with_regex = true →
      ∀ s ∈ passedSentences a, rm s = true := by
  intro a ha hf s hs
  have hstage : recognizeAllFilter true false rm available
      = regexFilterMatching rm available := by
    unfold recognizeAllFilter regexFilterStage
    simp only [Bool.not_false, Bool.and_true, if_true]
    rw [if_pos (by simpa [List.isEmpty_iff] using h)]
  rw [hstage] at ha
  rcases mem_regexFilterMatching rm available a ha with hfalse | ⟨ms, hms, hne, hall⟩
  · rw [hf] at hfalse; cases hfalse
  · have hpass : passedSentences a = ms := by
      unfold passedSentences
      rw [hms]
      cases ms with
      | nil => simp at hne
      | cons m mrest => rfl
    rw [hpass] at hs
    exact hall s hs

/-- C3 witness: the amended statement on a concrete surviving entry. -/
theorem c3_regex_filter_amended_witness :
    (fun (_ : Expression) => true) c3Sentence = true :=
  c3_regex_filter_amended (fun _ => true) [c3Pair]
    (by simp [regexFilterMatching, c3Pair, c3Data])
    ⟨c3Data, some [c3Sentence]⟩ (List.Mem.head _) rfl c3Sentence (List.Mem.head _)

/-- The score order is reflexive. -/
theorem scoreLe_refl (a : Nat × Int) : scoreLe a a = true := by
  simp [scoreLe]

/-- The score order is total. -/
theorem scoreLe_total (a b : Nat × Int) : scoreLe a b = true ∨ scoreLe b a = true := by
  simp only [scoreLe, Bool.or_eq_true, Bool.and_eq_true, decide_eq_true_eq]
  omega

/-- The score order is transitive. -/
theorem scoreLe_trans {a b c : Nat × Int} (h1 : scoreLe a b = true)
    (h2 : scoreLe b c = true) : scoreLe a c = true := by
  simp only [scoreLe, Bool.or_eq_true, Bool.and_eq_true, decide_eq_true_eq] at h1 h2 ⊢
  omega

/-- The head of the stable sort is a member that minimizes the score. -/
theorem sortByScore_head (l : List RecognizeResult) (h : l ≠ []) :
    ∃ m rest, sortByScore l = m :: rest ∧ m ∈ l ∧
      ∀ r ∈ l, scoreLe (getResultScore m) (getResultScore r) = true := by
  induction l with
  | nil => cases h rfl
  | cons x xs ih =>
    cases hxs : xs with
    | nil =>
      refine ⟨x, [], rfl, List.mem_cons_self _ _, ?_⟩
      intro r hr
      subst hxs
      rcases List.mem_cons.mp hr with rfl | h1
      · exact scoreLe_refl _
      · cases h1
    | cons y ys =>
      subst hxs
      obtain ⟨m, rest, hsort, hmem, hmin⟩ := ih (by simp)
      by_cases hxm : scoreLe (getResultScore x) (getResultScore m) = true
      · refine ⟨x, m :: rest, ?_, List.mem_cons_self _ _, ?_⟩
        · show insertByScore x (sortByScore (y :: ys)) = x :: m :: rest
          rw [hsort]
          simp only [insertByScore, hxm, if_true]
        · intro r hr
          rcases List.mem_cons.mp hr with rfl | h1
          · exact scoreLe_refl _
          · exact scoreLe_trans hxm (hmin r h1)
      · have hmx : scoreLe (getResultScore m) (getResultScore x) = true :=
          (scoreLe_total _ _).resolve_left hxm
        refine ⟨m, insertByScore x rest, ?_, List.mem_cons_of_mem x hmem, ?_⟩
        · show insertByScore x (sortByScore (y :: ys)) = m :: insertByScore x rest
          rw [hsort]
          simp [insertByScore, hxm]
        · intro r hr
          rcases List.mem_cons.mp hr with rfl | h1
          · exact hmx
          · exact hmin r h1

/-- With no metadata key and no slot name, the `recognize_best` loop simply
accumulates every result in order. -/
theorem recognizeBestLoop_none_none (results : List RecognizeResult) (st : BestState) :
    recognizeBestLoop none none results st
      = { st with bestResults := st.bestResults ++ results } := by
  induction results generalizing st with
  | nil => simp [recognizeBestLoop]
  | cons r rest ih =>
    show recognizeBestLoop none none rest { st with bestResults := st.bestResults ++ [r] }
      = _
    rw [ih]
    simp

/-- C4: with no `best_metadata_key` and no `best_slot_name`,
`recognize_best` returns a result with the minimum number of wildcard
entities among all yielded results, and, among results attaining that
minimum, a maximal `text_chunks_matched`. -/
theorem c4_best_prefers_fewer_wildcards (results : List RecognizeResult) (h : results ≠ []) :
    ∃ best, recognizeBest results none none = some best ∧ best ∈ results ∧
      (∀ r ∈ results,
        (best.entities_list.filter (fun e => e.is_wildcard)).length
          ≤ (r.entities_list.filter (fun e => e.is_wildcard)).length) ∧
      (∀ r ∈ results,
        (r.entities_list.filter (fun e => e.is_wildcard)).length
          = (best.entities_list.filter (fun e => e.is_wildcard)).length →
        r.text_chunks_matched ≤ best.text_chunks_matched) := by
  obtain ⟨m, rest, hsort, hmem, hmin⟩ := sortByScore_head results h
  have hne : results.isEmpty = false := by
    cases results
    · cases h rfl
    · rfl
  refine ⟨m, ?_, hmem, ?_, ?_⟩
  · unfold recognizeBest
    rw [recognizeBestLoop_none_none]
    simp only [List.nil_append, hne, Bool.not_false, if_true, hsort]
    rfl
  · intro r hr
    have hle := hmin r hr
    simp only [scoreLe, getResultScore, Bool.or_eq_true, Bool.and_eq_true,
      decide_eq_true_eq] at hle
    omega
  · intro r hr heq
    have hle := hmin r hr
    simp only [scoreLe, getResultScore, Bool.or_eq_true, Bool.and_eq_true,
      decide_eq_true_eq] at hle
    omega

/-- C4 witness: on a pair of concrete results, the wildcard-free one with
fewer matched characters wins. -/
theorem c4_best_prefers_fewer_wildcards_witness :
    ∃ best, recognizeBest [c4ResultA, c4ResultB] none none = some best ∧
      best ∈ [c4ResultA, c4ResultB] ∧
      (∀ r ∈ [c4ResultA, c4ResultB],
        (best.entities_list.filter (fun e => e.is_wildcard)).length
          ≤ (r.entities_list.filter (fun e => e.is_wildcard)).length) ∧
      (∀ r ∈ [c4ResultA, c4ResultB],
        (r.entities_list.filter (fun e => e.is_wildcard)).length
          = (best.entities_list.filter (fun e => e.is_wildcard)).length →
        r.text_chunks_matched ≤ best.text_chunks_matched) :=
  c4_best_prefers_fewer_wildcards [c4ResultA, c4ResultB] (by simp)

/-- The code's range-membership test agrees with "within bounds" for unit
step and with "in the arithmetic progression start, start+step, …, ≤ stop"
otherwise. -/
theorem inRange_iff (rl : RangeSlotList) (hstep : 0 < rl.step) (n : Int) :
    rangeListInRange rl n = true ↔
      (if rl.step = 1 then rl.start ≤ n ∧ n ≤ rl.stop
       else ∃ k : ℕ, n = rl.start + k * rl.step ∧ n ≤ rl.stop) := by
  unfold rangeListInRange
  by_cases h1 : rl.step = 1
  · simp [h1]
  · simp only [h1, if_false, Bool.and_eq_true, decide_eq_true_eq]
    constructor
    · rintro ⟨⟨hge, hlt⟩, hmod⟩
      have hdvd : rl.step ∣ (n - rl.start) := Int.dvd_of_emod_eq_zero hmod
      obtain ⟨c, hc⟩ := hdvd
      have hc0 : 0 ≤ c := by
        by_contra hneg
        push_neg at hneg
        nlinarith
      refine ⟨c.toNat, ?_, by omega⟩
      rw [Int.toNat_of_nonneg hc0, mul_comm]
      linarith [hc]
    · rintro ⟨k, hk, hle⟩
      have hknn : (0 : Int) ≤ (k : Int) * rl.step :=
        mul_nonneg (Int.natCast_nonneg k) (le_of_lt hstep)
      refine ⟨⟨by linarith [hknn, hk], by omega⟩, ?_⟩
      have hsub : n - rl.start = (k : Int) * rl.step := by linarith
      rw [hsub, Int.mul_emod_left]

/-- A leading number match implies a non-empty input. -/
theorem matchNumberPre_ne_nil (s : Str) (e : Nat) (h : matchNumberPre s = some e) :
    s.isEmpty = false := by
  cases s with
  | nil => simp [matchNumberPre] at h
  | cons c cs => rfl

/-- Evaluation of the RangeSlotList branch with no open wildcard, digits
enabled and a leading number: only the digit path runs (the word-number
lookup is never consulted because a digit was present), yielding the range
entity on an in-range number, the unmatched-range/not-a-number contexts when
out of range with unmatched entities allowed, and nothing otherwise. -/
theorem c2_eval (wf : WordsFind) (mrec : MatchRec) (settings : MatchSettings)
    (ctx : MatchContext) (slotName : Str) (rl : RangeSlotList)
    (hdigits : rl.digits = true)
    (endPos : Nat) (hnum : matchNumberPre ctx.text = some endPos) :
    rangeBranch wf mrec settings ctx slotName rl none =
      .ok (if rangeListInRange rl (pyIntOfStr (ctx.text.take endPos)) then
             [{ ctx with
                text := ctx.text.drop endPos,
                entities := ctx.entities ++
                  [rangeDigitEntity slotName rl (pyIntOfStr (ctx.text.take endPos))
                    (ctx.text.take endPos)] }]
           else if settings.allow_unmatched_entities then
             [{ ctx with
                text := ctx.text.drop (ctx.text.take endPos).length,
                unmatched_entities := ctx.unmatched_entities ++
                  [.range slotName (.int (pyIntOfStr (ctx.text.take endPos)))] },
              { ctx with
                entities := closeWildcards ctx.entities,
                unmatched_entities := ctx.unmatched_entities ++ [.text slotName [] true] }]
           else []) := by
  unfold rangeBranch
  rw [hnum]
  simp only [hdigits, Bool.true_and, List.isEmpty_cons, Bool.not_false, Bool.and_self,
    if_true, Option.isSome_none]
  unfold digitLoop
  simp only [List.drop_zero, Nat.sub_zero]
  by_cases hin : rangeListInRange rl (pyIntOfStr (ctx.text.take endPos)) = true
  · simp only [hin, if_true, Bool.not_false]
    unfold digitLoop
    simp only [Bool.not_true, Bool.false_and, Bool.and_false, if_false,
      List.append_nil, rangeDigitEntity]
    rfl
  · rw [if_neg hin]
    simp only [Bool.not_false]
    by_cases hallow : settings.allow_unmatched_entities = true
    · simp only [hallow, Bool.true_and, Bool.and_true, if_true]
      unfold digitLoop
      simp only [Bool.and_false, Bool.false_eq_true, if_false, if_true,
        eq_false_of_ne_true hin]
      rfl
    · simp only [eq_false_of_ne_true hallow, Bool.false_and, Bool.and_false, if_false]
      unfold digitLoop
      simp only [Bool.and_false, Bool.false_eq_true, if_false,
        eq_false_of_ne_true hin]
      rfl

/-- C2: matching a ListReference against a RangeSlotList with digits
enabled and no open wildcard, when a leading integer is present: the number
is accepted (a MatchEntity with its value is appended) exactly when
`start ≤ n ≤ stop` for unit step, and exactly when `n` lies in the
progression `start, start+step, …, ≤ stop` otherwise; and the result does
not depend on the word-number lookup at all (two arbitrary lookups `wf1`,
`wf2` give identical results), since the words path runs only when words are
enabled, digits did not match, and no digit was present. -/
theorem c2_range_digit_acceptance (wf1 wf2 : WordsFind) (settings : MatchSettings)
    (ctx : MatchContext) (listName slotName : Str) (rl : RangeSlotList) (fuel : Nat)
    (hlist : slotListsGet settings.slot_lists listName = some (.range rl))
    (hdigits : rl.digits = true) (hstep : 0 < rl.step)
    (hwc : ctx.getOpenWildcard = none)
    (endPos : Nat) (hnum : matchNumberPre ctx.text = some endPos) :
    (∃ cs, matchExpression wf1 settings (fuel + 1) ctx (.listRef listName slotName)
        = .ok cs ∧
      ((∃ c ∈ cs, c.entities = ctx.entities ++
          [rangeDigitEntity slotName rl (pyIntOfStr (ctx.text.take endPos))
            (ctx.text.take endPos)]) ↔
        (if rl.step = 1 then
           rl.start ≤ pyIntOfStr (ctx.text.take endPos) ∧
             pyIntOfStr (ctx.text.take endPos) ≤ rl.stop
         else
           ∃ k : ℕ, pyIntOfStr (ctx.text.take endPos)
               = rl.start + (k : Int) * rl.step ∧
             pyIntOfStr (ctx.text.take endPos) ≤ rl.stop)))
    ∧ matchExpression wf1 settings (fuel + 1) ctx (.listRef listName slotName)
        = matchExpression wf2 settings (fuel + 1) ctx (.listRef listName slotName) := by
  have htext := matchNumberPre_ne_nil ctx.text endPos hnum
  have hme : ∀ wf : WordsFind,
      matchExpression wf settings (fuel + 1) ctx (.listRef listName slotName)
        = rangeBranch wf (fun c e => matchExpression wf settings fuel c e)
            settings ctx slotName rl none := by
    intro wf
    have h0 : matchExpression wf settings (fuel + 1) ctx (.listRef listName slotName)
        = matchListRef wf (fun c e => matchExpression wf settings fuel c e)
            settings ctx listName slotName := rfl
    rw [h0]
    unfold matchListRef
    rw [hlist]
    simp only [htext, Bool.false_eq_true, if_false, hwc]
  have heval : ∀ wf : WordsFind,
      matchExpression wf settings (fuel + 1) ctx (.listRef listName slotName)
        = .ok (if rangeListInRange rl (pyIntOfStr (ctx.text.take endPos)) then
             [{ ctx with
                text := ctx.text.drop endPos,
                entities := ctx.entities ++
                  [rangeDigitEntity slotName rl (pyIntOfStr (ctx.text.take endPos))
                    (ctx.text.take endPos)] }]
           else if settings.allow_unmatched_entities then
             [{ ctx with
                text := ctx.text.drop (ctx.text.take endPos).length,
                unmatched_entities := ctx.unmatched_entities ++
                  [.range slotName (.int (pyIntOfStr (ctx.text.take endPos)))] },
              { ctx with
                entities := closeWildcards ctx.entities,
                unmatched_entities := ctx.unmatched_entities ++ [.text slotName [] true] }]
           else []) := fun wf =>
    (hme wf).trans (c2_eval wf _ settings ctx slotName rl hdigits endPos hnum)
  refine ⟨⟨_, heval wf1, ?_⟩, (heval wf1).trans (heval wf2).symm⟩
  by_cases hin : rangeListInRange rl (pyIntOfStr (ctx.text.take endPos)) = true
  · rw [if_pos hin]
    refine iff_of_true ⟨_, List.Mem.head _, rfl⟩ ((inRange_iff rl hstep _).mp hin)
  · rw [if_neg hin]
    refine iff_of_false ?_ (fun hr => hin ((inRange_iff rl hstep _).mpr hr))
    rintro ⟨c, hc, hent⟩
    have hlen : c.entities.length = ctx.entities.length + 1 := by
      rw [hent, List.length_append, List.length_cons, List.length_nil]
    by_cases hallow : settings.allow_unmatched_entities = true
    · rw [if_pos hallow] at hc
      rcases List.mem_cons.mp hc with rfl | hc2
      · simp at hlen
      rcases List.mem_cons.mp hc2 with rfl | hc3
      · simp only [closeWildcards, List.length_map] at hlen
        omega
      · cases hc3
    · rw [if_neg hallow] at hc
      cases hc


/-- C2 witness: the statement evaluated on the input `75 ` against a 0–100
unit-step percentage list. -/
theorem c2_range_digit_acceptance_witness :
    (∃ cs, matchExpression (fun _ _ _ => []) c2Settings 1 c2Ctx
        (.listRef (str "pct") (str "pct")) = .ok cs ∧
      ((∃ c ∈ cs, c.entities = c2Ctx.entities ++
          [rangeDigitEntity (str "pct") c2Range (pyIntOfStr (c2Ctx.text.take 2))
            (c2Ctx.text.take 2)]) ↔
        (if c2Range.step = 1 then
           c2Range.start ≤ pyIntOfStr (c2Ctx.text.take 2) ∧
             pyIntOfStr (c2Ctx.text.take 2) ≤ c2Range.stop
         else
           ∃ k : ℕ, pyIntOfStr (c2Ctx.text.take 2)
               = c2Range.start + (k : Int) * c2Range.step ∧
             pyIntOfStr (c2Ctx.text.take 2) ≤ c2Range.stop)))
    ∧ matchExpression (fun _ _ _ => []) c2Settings 1 c2Ctx
        (.listRef (str "pct") (str "pct"))
        = matchExpression (fun _ _ _ => []) c2Settings 1 c2Ctx
            (.listRef (str "pct") (str "pct")) :=
  c2_range_digit_acceptance (fun _ _ _ => []) (fun _ _ _ => []) c2Settings c2Ctx
    (str "pct") (str "pct") c2Range 0 rfl rfl (by decide) rfl 2 (by decide)

/-- `dropWhile` is idempotent. -/
theorem dropWhile_idem (p : Char → Bool) (l : Str) :
    (l.dropWhile p).dropWhile p = l.dropWhile p := by
  induction l with
  | nil => rfl
  | cons c t ih =>
    by_cases hc : p c = true
    · simp [List.dropWhile, hc, ih]
    · simp [List.dropWhile, hc]

/-- `lstrip` is idempotent. -/
theorem pyLstrip_idem (s : Str) : pyLstrip (pyLstrip s) = pyLstrip s :=
  dropWhile_idem isPySpace s

/-- `rstrip` is idempotent. -/
theorem pyRstrip_idem (s : Str) : pyRstrip (pyRstrip s) = pyRstrip s := by
  unfold pyRstrip
  rw [List.reverse_reverse, dropWhile_idem]

/-- `rstrip` of a non-empty string is empty or keeps the head. -/
theorem pyRstrip_cons (c : Char) (t : Str) :
    pyRstrip (c :: t) = [] ∨ ∃ t', pyRstrip (c :: t) = c :: t' := by
  have hsuf : (List.reverse (c :: t)).dropWhile isPySpace <:+ List.reverse (c :: t) :=
    List.dropWhile_suffix _
  have hpre : ((List.reverse (c :: t)).dropWhile isPySpace).reverse <+: c :: t := by
    rw [← List.reverse_suffix, List.reverse_reverse]
    exact List.dropWhile_suffix _
  obtain ⟨u, hu⟩ := hpre
  cases hp : ((List.reverse (c :: t)).dropWhile isPySpace).reverse with
  | nil => exact Or.inl hp
  | cons d t' =>
    rw [hp] at hu
    have hd : d = c := (List.cons.injEq _ _ _ _ ▸ hu).1
    exact Or.inr ⟨t', by rw [show pyRstrip (c :: t)
      = ((List.reverse (c :: t)).dropWhile isPySpace).reverse from rfl, hp, hd]⟩

/-- `rstrip` preserves the absence of leading whitespace. -/
theorem pyLstrip_pyRstrip (y : Str) (hy : pyLstrip y = y) :
    pyLstrip (pyRstrip y) = pyRstrip y := by
  cases y with
  | nil => rfl
  | cons c t =>
    have hc : isPySpace c = false := by
      by_contra hcc
      have hct : isPySpace c = true := by
        cases h' : isPySpace c
        · exact absurd h' hcc
        · rfl
      have : pyLstrip (c :: t) = pyLstrip t := by simp [pyLstrip, List.dropWhile, hct]
      rw [hy] at this
      have hlen := congrArg List.length this
      have hle : (t.dropWhile isPySpace).length ≤ t.length :=
        (List.dropWhile_suffix (l := t) isPySpace).length_le
      simp only [List.length_cons, pyLstrip] at hlen
      omega
    rcases pyRstrip_cons c t with h0 | ⟨t', ht'⟩
    · rw [h0]; rfl
    · rw [ht']
      simp [pyLstrip, List.dropWhile, hc]

/-- `strip` is idempotent. -/
theorem pyStrip_idem (s : Str) : pyStrip (pyStrip s) = pyStrip s := by
  unfold pyStrip
  rw [pyLstrip_pyRstrip (pyLstrip s) (pyLstrip_idem s), pyRstrip_idem]

/-- `_copy_and_check_required_context` never touches the matched entities. -/
theorem copyCheckLoop_entities (allow : Bool) :
    ∀ (req : List (Str × PyValue)) (ctx : MatchContext) (slots : List MatchEntity)
      (res : MatchContext × List MatchEntity),
      copyCheckLoop allow req ctx slots = some res → res.fst.entities = ctx.entities := by
  intro req
  induction req with
  | nil =>
    intro ctx slots res h
    simp only [copyCheckLoop, Option.some.injEq] at h
    rw [← h]
  | cons kv rest ih =>
    intro ctx slots res h
    obtain ⟨key, cval0⟩ := kv
    simp only [copyCheckLoop] at h
    repeat' split at h
    all_goals first
      | cases h
      | (have hh := ih _ _ res h; exact hh)

/-- Every slot entity collected by `_copy_and_check_required_context` beyond
the initial ones is a non-wildcard entity. -/
theorem copyCheckLoop_slots (allow : Bool) :
    ∀ (req : List (Str × PyValue)) (ctx : MatchContext) (slots : List MatchEntity)
      (res : MatchContext × List MatchEntity),
      copyCheckLoop allow req ctx slots = some res →
      ∀ e ∈ res.snd, e ∈ slots ∨ e.is_wildcard = false := by
  intro req
  induction req with
  | nil =>
    intro ctx slots res h e he
    simp only [copyCheckLoop, Option.some.injEq] at h
    rw [← h] at he
    exact Or.inl he
  | cons kv rest ih =>
    intro ctx slots res h e he
    obtain ⟨key, cval0⟩ := kv
    simp only [copyCheckLoop] at h
    have grow : ∀ (slots2 : List MatchEntity),
        (∀ x ∈ slots2, x ∈ slots ∨ x.is_wildcard = false) →
        ∀ (ctx2 : MatchContext), copyCheckLoop allow rest ctx2 slots2 = some res →
        e ∈ slots ∨ e.is_wildcard = false := by
      intro slots2 hs ctx2 hrec
      rcases ih ctx2 slots2 res hrec e he with hmem | hnw
      · exact hs e hmem
      · exact Or.inr hnw
    repeat' split at h
    all_goals first
      | cases h
      | exact grow _ (fun x hx => Or.inl hx) _ h
      | exact grow _ (fun x hx => (List.mem_append.mp hx).elim Or.inl
          (fun hs => Or.inr (by rw [List.mem_singleton.mp hs]))) _ h

/-- Any result shaped from a closed context has no wildcard entity with
blank text: the `is_match` gate rejects blank wildcards, cleanup only strips
already non-blank texts (strip is idempotent), and the fixed/context slots
are never wildcards. -/
theorem processClosed_wildcards (intentName : Str) (intentData : IntentData)
    (defaultResponse : Option Str) (allow : Bool) (ctx1 : MatchContext)
    (r : RecognizeResult)
    (h : processClosed intentName intentData defaultResponse allow ctx1 = some r) :
    ∀ e ∈ r.entities_list, e.is_wildcard = true → pyStrip e.text ≠ [] := by
  intro e he hw
  unfold processClosed at h
  split at h
  · cases h
  · next hm =>
    split at h
    · cases h
    · generalize hstep : (if (!intentData.requires_context.isEmpty) = true
          then copyCheckLoop allow intentData.requires_context ctx1 []
          else some (ctx1, ([] : List MatchEntity))) = reqStep at h
      cases reqStep with
      | none => cases h
      | some pair =>
        obtain ⟨ctx2, slots⟩ := pair
        rw [Option.some.injEq] at h
        subst h
        have hmatch : ctx1.isMatch = true := by
          revert hm
          cases hh : ctx1.isMatch <;> simp [hh]
        have hents : ctx2.entities = ctx1.entities := by
          by_cases hreq : (!intentData.requires_context.isEmpty) = true
          · rw [if_pos hreq] at hstep
            exact copyCheckLoop_entities allow _ _ _ _ hstep
          · rw [if_neg hreq, Option.some.injEq, Prod.mk.injEq] at hstep
            rw [← hstep.1]
        have hslots : ∀ x ∈ slots, x.is_wildcard = false := by
          by_cases hreq : (!intentData.requires_context.isEmpty) = true
          · rw [if_pos hreq] at hstep
            intro x hx
            rcases copyCheckLoop_slots allow _ _ _ _ hstep x hx with hmem | hnw
            · cases hmem
            · exact hnw
          · rw [if_neg hreq, Option.some.injEq, Prod.mk.injEq] at hstep
            intro x hx
            rw [← hstep.2] at hx
            cases hx
        simp only at he
        rcases List.mem_append.mp he with h12 | h3
        · rcases List.mem_append.mp h12 with h1 | h2
          · obtain ⟨e0, he0, hee⟩ := List.mem_map.mp h1
            by_cases hw0 : e0.is_wildcard = true
            · rw [if_pos hw0] at hee
              have htext : e.text = pyStrip e0.text := by rw [← hee]
              have hne : pyStrip e0.text ≠ [] :=
                ((isMatch_iff ctx1).mp hmatch).2.1 e0 (hents ▸ he0) hw0
              rw [htext, pyStrip_idem]
              exact hne
            · rw [if_neg hw0] at hee
              rw [← hee] at hw
              exact absurd hw hw0
          · obtain ⟨kv, _, hee⟩ := List.mem_map.mp h2
            rw [← hee] at hw
            cases hw
        · have := hslots e (List.mem_filter.mp h3).1
          rw [hw] at this
          cases this

/-- C7: every result yielded by `_process_match_contexts` (hence by
`recognize_all`, which passes every candidate context through it) has only
wildcard entities whose text is non-empty after stripping. -/
theorem c7_no_empty_wildcard_in_results (intentName : Str) (intentData : IntentData)
    (defaultResponse : Option Str) (allow : Bool) (ctxs : List MatchContext)
    (r : RecognizeResult)
    (hr : r ∈ processMatchContexts intentName intentData defaultResponse allow ctxs)
    (e : MatchEntity) (he : e ∈ r.entities_list) (hw : e.is_wildcard = true) :
    pyStrip e.text ≠ [] := by
  obtain ⟨ctx, _, hsome⟩ := List.mem_filterMap.mp hr
  exact processClosed_wildcards intentName intentData defaultResponse allow
    (closeContext ctx) r hsome e he hw

/-- C7 witness: the invariant on a concrete produced result. -/
theorem c7_no_empty_wildcard_in_results_witness : pyStrip (str "x") ≠ [] :=
  c7_no_empty_wildcard_in_results (str "TestIntent") c7Data none false [c7Ctx] _ (List.Mem.head _) _
    (List.Mem.head _) rfl
